import Mathlib

/-!
Verification development for the ewc-parser repository.

The repository has two variants of one program:
* `src/unnamed/part_000` ("registry variant"): the correlation engine
  `parseEwcData` joining RedemptionStatementSet / CertificateBatchMinted /
  TransferSingle(mint) / ClaimSingle events into Batch / Certificate / Claim
  tables with positional row ids, plus the claim-payload fallback decoder
  `decodeClaimV3` / `decodeClaimV1` / `decodeClaimV2`.
* `src/src/index.ts` ("agreement variant"): additionally reconciles
  AgreementSigned against AgreementFilled events and logs a diagnostic when
  the signed and filled amounts differ.

The pure computational core of both variants is embedded below.  Arbitrary
precision integers (ethers `BigNumber`, uint256 token ids / values / topics)
are modelled as `Nat`; byte blobs (`BytesLike`) as `List Nat` with each
element a byte value; JavaScript's stable `Array.prototype.sort` as
`List.insertionSort` (any stable comparator sort produces the same output).

External library boundaries are modelled from their documented behaviour:
* ethers `defaultAbiCoder.decode(['string',...], data)` as `abiDecodeStrings`:
  per field, read a 32-byte big-endian head word as the tail offset, at the
  tail read a 32-byte length word then that many content bytes, and decode
  the content as strict UTF-8; any out-of-bounds read or invalid UTF-8 is a
  decode error (ethers throws, the source catches).
* `JSON.parse` as `jsonParse` over an inductive `Json` value type.  Number
  literals are kept as their source text (`Json.num lit`), which is faithful
  for every success/failure and structural question the claims ask;
  floating-point value semantics of JavaScript numbers are not modelled.
* `JSON.stringify` as `jsonStringify` (insertion-order keys, compact form).
-/

namespace Ewc

/-! ### Byte-level utilities -/

/-- Big-endian interpretation of a byte list as a natural number. -/
def beNat (bs : List Nat) : Nat :=
  bs.foldl (fun acc b => acc * 256 + b) 0

/-- Read the 32-byte word starting at offset `off`; `none` when out of bounds
(ethers' reader throws on out-of-bounds reads). -/
def readWord (data : List Nat) (off : Nat) : Option Nat :=
  if off + 32 ≤ data.length then some (beNat ((data.drop off).take 32)) else none

/-- Read `len` bytes starting at offset `off`; `none` when out of bounds. -/
def sliceBytes (data : List Nat) (off len : Nat) : Option (List Nat) :=
  if off + len ≤ data.length then some ((data.drop off).take len) else none

/-- Strict UTF-8 decoding of a byte list (ethers `toUtf8String` throws on
invalid UTF-8; overlong encodings, surrogates and out-of-range code points
are rejected). -/
def utf8Decode : List Nat → Option (List Char)
  | [] => some []
  | b :: rest =>
    if b < 0x80 then
      (utf8Decode rest).map (fun cs => Char.ofNat b :: cs)
    else if b < 0xC2 then
      none
    else if b < 0xE0 then
      match rest with
      | c1 :: rest2 =>
        if 0x80 ≤ c1 && c1 < 0xC0 then
          (utf8Decode rest2).map (fun cs => Char.ofNat ((b - 0xC0) * 64 + (c1 - 0x80)) :: cs)
        else none
      | [] => none
    else if b < 0xF0 then
      match rest with
      | c1 :: c2 :: rest2 =>
        if (0x80 ≤ c1 && c1 < 0xC0) && (0x80 ≤ c2 && c2 < 0xC0) then
          let cp := (b - 0xE0) * 4096 + (c1 - 0x80) * 64 + (c2 - 0x80)
          if cp < 0x800 then none
          else if 0xD800 ≤ cp && cp < 0xE000 then none
          else (utf8Decode rest2).map (fun cs => Char.ofNat cp :: cs)
        else none
      | _ => none
    else if b < 0xF5 then
      match rest with
      | c1 :: c2 :: c3 :: rest2 =>
        if ((0x80 ≤ c1 && c1 < 0xC0) && (0x80 ≤ c2 && c2 < 0xC0)) && (0x80 ≤ c3 && c3 < 0xC0) then
          let cp := (b - 0xF0) * 262144 + (c1 - 0x80) * 4096 + (c2 - 0x80) * 64 + (c3 - 0x80)
          if cp < 0x10000 then none
          else if 0x10FFFF < cp then none
          else (utf8Decode rest2).map (fun cs => Char.ofNat cp :: cs)
        else none
      | _ => none
    else none

/-- Decode a byte list as a UTF-8 string. -/
def stringOfBytes (bs : List Nat) : Option String :=
  (utf8Decode bs).map List.asString

/-! ### ABI decoding of a tuple of dynamic strings

Model of ethers v5 `defaultAbiCoder.decode(['string', ..., 'string'], data)`:
the i-th head word (32 bytes at offset `32*i`) is the offset of the i-th
tail; the tail is a 32-byte length word followed by the content bytes.  Any
out-of-bounds read or invalid UTF-8 content makes the whole decode throw
(modelled as `none`). -/

/-- Decode the dynamic string whose head word sits at `headOff`. -/
def abiReadString (data : List Nat) (headOff : Nat) : Option String := do
  let off ← readWord data headOff
  let len ← readWord data off
  let bytes ← sliceBytes data (off + 32) len
  stringOfBytes bytes

/-- Decode `n` strings whose head words start at `headOff`. -/
def abiDecodeStringsFrom (data : List Nat) (headOff : Nat) : Nat → Option (List String)
  | 0 => some []
  | n + 1 => do
    let s ← abiReadString data headOff
    let rest ← abiDecodeStringsFrom data (headOff + 32) n
    pure (s :: rest)

/-- Model of `defaultAbiCoder.decode` over a tuple of `n` `string` fields. -/
def abiDecodeStrings (n : Nat) (data : List Nat) : Option (List String) :=
  abiDecodeStringsFrom data 0 n

/-! ### JSON values, parsing and serialization -/

/-- JSON values as produced by `JSON.parse`.  Number literals are kept as
their source text. -/
inductive Json where
  | null : Json
  | bool (b : Bool) : Json
  | num (lit : String) : Json
  | str (s : String) : Json
  | arr (elems : List Json) : Json
  | obj (fields : List (String × Json)) : Json
deriving Repr

/-- Skip JSON whitespace. -/
def skipWs : List Char → List Char
  | [] => []
  | c :: rest =>
    if c = ' ' || c = '\t' || c = '\n' || c = '\r' then skipWs rest else c :: rest

/-- Value of one hexadecimal digit. -/
def hexVal (c : Char) : Option Nat :=
  let n := c.toNat
  if 48 ≤ n && n ≤ 57 then some (n - 48)
  else if 65 ≤ n && n ≤ 70 then some (n - 55)
  else if 97 ≤ n && n ≤ 102 then some (n - 87)
  else none

/-- Value of four hexadecimal digits. -/
def hex4 (a b c d : Char) : Option Nat := do
  let va ← hexVal a
  let vb ← hexVal b
  let vc ← hexVal c
  let vd ← hexVal d
  pure (va * 4096 + vb * 256 + vc * 16 + vd)

/-- Parse the body of a JSON string literal (after the opening quote),
returning the decoded characters and the remainder after the closing quote.
Surrogate escape pairs are combined; lone surrogate escapes are rejected
(Lean characters are scalar values). -/
def parseStringChars : List Char → Option (List Char × List Char)
  | [] => none
  | c :: rest =>
    if c = '"' then some ([], rest)
    else if c = '\\' then
      match rest with
      | [] => none
      | e :: rest2 =>
        if e = '"' then (parseStringChars rest2).map (fun p => ( '"' :: p.1, p.2))
        else if e = '\\' then (parseStringChars rest2).map (fun p => ( '\\' :: p.1, p.2))
        else if e = '/' then (parseStringChars rest2).map (fun p => ( '/' :: p.1, p.2))
        else if e = 'b' then (parseStringChars rest2).map (fun p => (Char.ofNat 8 :: p.1, p.2))
        else if e = 'f' then (parseStringChars rest2).map (fun p => (Char.ofNat 12 :: p.1, p.2))
        else if e = 'n' then (parseStringChars rest2).map (fun p => ( '\n' :: p.1, p.2))
        else if e = 'r' then (parseStringChars rest2).map (fun p => ( '\r' :: p.1, p.2))
        else if e = 't' then (parseStringChars rest2).map (fun p => ( '\t' :: p.1, p.2))
        else if e = 'u' then
          match rest2 with
          | h1 :: h2 :: h3 :: h4 :: rest3 =>
            match hex4 h1 h2 h3 h4 with
            | none => none
            | some v =>
              if 0xD800 ≤ v && v < 0xDC00 then
                match rest3 with
                | '\\' :: 'u' :: g1 :: g2 :: g3 :: g4 :: rest4 =>
                  match hex4 g1 g2 g3 g4 with
                  | none => none
                  | some w =>
                    if 0xDC00 ≤ w && w < 0xE000 then
                      (parseStringChars rest4).map
                        (fun p => (Char.ofNat (0x10000 + (v - 0xD800) * 1024 + (w - 0xDC00)) :: p.1, p.2))
                    else none
                | _ => none
              else if 0xDC00 ≤ v && v < 0xE000 then none
              else (parseStringChars rest3).map (fun p => (Char.ofNat v :: p.1, p.2))
          | _ => none
        else none
    else if c.toNat < 0x20 then none
    else (parseStringChars rest).map (fun p => (c :: p.1, p.2))

/-- Is this character an ASCII digit? -/
def isDigitCh (c : Char) : Bool :=
  48 ≤ c.toNat && c.toNat ≤ 57

/-- Split off the longest leading run of digits. -/
def takeDigits : List Char → List Char × List Char
  | [] => ([], [])
  | c :: rest =>
    if isDigitCh c then
      let p := takeDigits rest
      (c :: p.1, p.2)
    else ([], c :: rest)

/-- Scan a JSON number token, returning its characters and the remainder. -/
def scanNumber (cs : List Char) : Option (List Char × List Char) :=
  let signAndRest : List Char × List Char :=
    match cs with
    | c :: r => if c = '-' then ([c], r) else ([], cs)
    | [] => ([], [])
  let sign := signAndRest.1
  match signAndRest.2 with
  | [] => none
  | c :: r =>
    let intAndRest : Option (List Char × List Char) :=
      if c = '0' then some ([c], r)
      else if isDigitCh c then
        let p := takeDigits r
        some (c :: p.1, p.2)
      else none
    match intAndRest with
    | none => none
    | some (intPart, rest1) =>
      let fracAndRest : Option (List Char × List Char) :=
        match rest1 with
        | '.' :: r2 =>
          let p := takeDigits r2
          if p.1 = [] then none else some ('.' :: p.1, p.2)
        | _ => some ([], rest1)
      match fracAndRest with
      | none => none
      | some (fracPart, rest2) =>
        let expAndRest : Option (List Char × List Char) :=
          match rest2 with
          | e :: r3 =>
            if e = 'e' || e = 'E' then
              let signAndR4 : List Char × List Char :=
                match r3 with
                | s :: r4 => if s = '+' || s = '-' then ([s], r4) else ([], r3)
                | [] => ([], [])
              let p := takeDigits signAndR4.2
              if p.1 = [] then none else some (e :: (signAndR4.1 ++ p.1), p.2)
            else some ([], rest2)
          | [] => some ([], rest2)
        match expAndRest with
        | none => none
        | some (expPart, rest3) => some (sign ++ intPart ++ fracPart ++ expPart, rest3)

mutual

/-- Parse one JSON value (leading whitespace already skipped). -/
def parseJsonValue : Nat → List Char → Option (Json × List Char)
  | 0, _ => none
  | fuel + 1, cs =>
    match cs with
    | [] => none
    | c :: rest =>
      if c = '"' then
        (parseStringChars rest).map (fun p => (Json.str (String.mk p.1), p.2))
      else if c = 't' then
        match rest with
        | 'r' :: 'u' :: 'e' :: r => some (Json.bool true, r)
        | _ => none
      else if c = 'f' then
        match rest with
        | 'a' :: 'l' :: 's' :: 'e' :: r => some (Json.bool false, r)
        | _ => none
      else if c = 'n' then
        match rest with
        | 'u' :: 'l' :: 'l' :: r => some (Json.null, r)
        | _ => none
      else if c = '[' then
        match skipWs rest with
        | ']' :: r2 => some (Json.arr [], r2)
        | r1 => (parseJsonElems fuel r1).map (fun p => (Json.arr p.1, p.2))
      else if c = '\x7b' then
        match skipWs rest with
        | '\x7d' :: r2 => some (Json.obj [], r2)
        | r1 => (parseJsonMembers fuel r1).map (fun p => (Json.obj p.1, p.2))
      else
        (scanNumber cs).map (fun p => (Json.num (String.mk p.1), p.2))

/-- Parse the elements of a JSON array up to and including the closing
bracket. -/
def parseJsonElems : Nat → List Char → Option (List Json × List Char)
  | 0, _ => none
  | fuel + 1, cs => do
    let (v, r1) ← parseJsonValue fuel cs
    match skipWs r1 with
    | ',' :: r3 => (parseJsonElems fuel (skipWs r3)).map (fun p => (v :: p.1, p.2))
    | ']' :: r3 => some ([v], r3)
    | _ => none

/-- Parse the members of a JSON object up to and including the closing
brace. -/
def parseJsonMembers : Nat → List Char → Option (List (String × Json) × List Char)
  | 0, _ => none
  | fuel + 1, cs =>
    match cs with
    | '"' :: r0 => do
      let (key, r1) ← parseStringChars r0
      match skipWs r1 with
      | ':' :: r2 => do
        let (v, r3) ← parseJsonValue fuel (skipWs r2)
        match skipWs r3 with
        | ',' :: r4 =>
          (parseJsonMembers fuel (skipWs r4)).map (fun p => ((String.mk key, v) :: p.1, p.2))
        | '\x7d' :: r4 => some ([(String.mk key, v)], r4)
        | _ => none
      | _ => none
    | _ => none

end

/-- Model of `JSON.parse`: parse a complete JSON text, requiring only
whitespace after the value. -/
def jsonParse (s : String) : Option Json :=
  let cs := skipWs s.data
  match parseJsonValue (cs.length + 1) cs with
  | some (v, rest) => if skipWs rest = [] then some v else none
  | none => none

/-- Lowercase hexadecimal digit. -/
def hexDigit (n : Nat) : Char :=
  if n < 10 then Char.ofNat (48 + n) else Char.ofNat (87 + n)

/-- Four lowercase hexadecimal digits. -/
def hex4Str (n : Nat) : String :=
  String.mk [hexDigit (n / 4096 % 16), hexDigit (n / 256 % 16), hexDigit (n / 16 % 16), hexDigit (n % 16)]

/-- Escape one character as inside a `JSON.stringify` string literal. -/
def jsonEscapeChar (c : Char) : String :=
  if c = '"' then "\\\""
  else if c = '\\' then "\\\\"
  else if c = '\n' then "\\n"
  else if c = '\r' then "\\r"
  else if c = '\t' then "\\t"
  else if c.toNat = 8 then "\\b"
  else if c.toNat = 12 then "\\f"
  else if c.toNat < 32 then "\\u" ++ hex4Str c.toNat
  else String.singleton c

/-- Escape a string as inside a `JSON.stringify` string literal. -/
def jsonEscape (s : String) : String :=
  s.data.foldl (fun acc c => acc ++ jsonEscapeChar c) ""

mutual

/-- Model of `JSON.stringify` (compact form, insertion-order keys). -/
def jsonStringify : Json → String
  | Json.null => "null"
  | Json.bool true => "true"
  | Json.bool false => "false"
  | Json.num lit => lit
  | Json.str s => "\"" ++ jsonEscape s ++ "\""
  | Json.arr xs => "[" ++ jsonStringifyElems xs ++ "]"
  | Json.obj fs => "\x7b" ++ jsonStringifyFields fs ++ "\x7d"

/-- Comma-separated serialization of array elements. -/
def jsonStringifyElems : List Json → String
  | [] => ""
  | [x] => jsonStringify x
  | x :: y :: rest => jsonStringify x ++ "," ++ jsonStringifyElems (y :: rest)

/-- Comma-separated serialization of object members. -/
def jsonStringifyFields : List (String × Json) → String
  | [] => ""
  | [(k, v)] => "\"" ++ jsonEscape k ++ "\":" ++ jsonStringify v
  | (k, v) :: y :: rest =>
    "\"" ++ jsonEscape k ++ "\":" ++ jsonStringify v ++ "," ++ jsonStringifyFields (y :: rest)

end

example : jsonParse "42" = some (Json.num "42") := rfl

example : jsonParse "A" = none := rfl

example : jsonParse "null" = some Json.null := rfl

example : jsonParse " \x7b\"a\": [1, true], \"b\": \"x\" \x7d " =
    some (Json.obj [("a", Json.arr [Json.num "1", Json.bool true]), ("b", Json.str "x")]) := rfl

example : jsonStringify (Json.obj [("a", Json.arr [Json.num "1", Json.bool true])]) =
    "\x7b\"a\":[1,true]\x7d" := rfl

/-! ### Claim payload decoding (`src/unnamed/part_000`, lines 322-429)

Each `decodeClaimVn` wraps its body in a try/catch and returns `null` from
the catch.  The body is embedded as an `Except Unit _` computation
(`Except.error` = a JavaScript exception thrown by the ABI decode or the
JSON parse), and the public function is the catch wrapper. -/

/-- The structured claim metadata record (type `ClaimData` in the source). -/
structure ClaimData where
  beneficiary : String
  region : String
  countryCode : String
  periodStartDate : String
  periodEndDate : String
  purpose : String
  consumptionEntityID : String
  proofID : String
  location : String
deriving Repr, DecidableEq

/-- The JSON object literal built by `decodeClaimV1` / `decodeClaimV3`
(insertion order of the source's object literals, which both list the nine
fields in this order). -/
def jsonOfClaimData (cd : ClaimData) : Json :=
  Json.obj
    [("beneficiary", Json.str cd.beneficiary),
     ("region", Json.str cd.region),
     ("countryCode", Json.str cd.countryCode),
     ("periodStartDate", Json.str cd.periodStartDate),
     ("periodEndDate", Json.str cd.periodEndDate),
     ("purpose", Json.str cd.purpose),
     ("consumptionEntityID", Json.str cd.consumptionEntityID),
     ("proofID", Json.str cd.proofID),
     ("location", Json.str cd.location)]

/-- Body of `decodeClaimV1`: ABI-decode six strings (beneficiary, location,
countryCode, periodStartDate, periodEndDate, purpose); if any destructured
field is undefined return `null`, else build the record with `region`,
`consumptionEntityID` and `proofID` mapped to the empty string. -/
def decodeClaimV1Body (data : List Nat) : Except Unit (Option ClaimData) :=
  match abiDecodeStrings 6 data with
  | none => Except.error ()
  | some fields =>
    match fields.get? 0, fields.get? 1, fields.get? 2, fields.get? 3, fields.get? 4, fields.get? 5 with
    | some beneficiary, some location, some countryCode, some psd, some ped, some purpose =>
      Except.ok (some
        { beneficiary := beneficiary, region := "", countryCode := countryCode,
          periodStartDate := psd, periodEndDate := ped, purpose := purpose,
          consumptionEntityID := "", proofID := "", location := location })
    | _, _, _, _, _, _ => Except.ok none

/-- `decodeClaimV1` (source lines 323-363): catch wrapper around the body. -/
def decodeClaimV1 (data : List Nat) : Option ClaimData :=
  match decodeClaimV1Body data with
  | Except.ok v => v
  | Except.error _ => none

/-- Body of `decodeClaimV3`: ABI-decode eight strings (beneficiary, region,
countryCode, periodStartDate, periodEndDate, purpose, consumptionEntityID,
proofID); if any destructured field is undefined return `null`, else build
the record with `location` mapped to the empty string. -/
def decodeClaimV3Body (data : List Nat) : Except Unit (Option ClaimData) :=
  match abiDecodeStrings 8 data with
  | none => Except.error ()
  | some fields =>
    match fields.get? 0, fields.get? 1, fields.get? 2, fields.get? 3,
          fields.get? 4, fields.get? 5, fields.get? 6, fields.get? 7 with
    | some beneficiary, some region, some countryCode, some psd,
      some ped, some purpose, some consumptionEntityID, some proofID =>
      Except.ok (some
        { beneficiary := beneficiary, region := region, countryCode := countryCode,
          periodStartDate := psd, periodEndDate := ped, purpose := purpose,
          consumptionEntityID := consumptionEntityID, proofID := proofID, location := "" })
    | _, _, _, _, _, _, _, _ => Except.ok none

/-- `decodeClaimV3` (source lines 377-429): catch wrapper around the body. -/
def decodeClaimV3 (data : List Nat) : Option ClaimData :=
  match decodeClaimV3Body data with
  | Except.ok v => v
  | Except.error _ => none

/-- Body of `decodeClaimV2`: ABI-decode a single string, then `JSON.parse`
it; the parsed value is returned as-is, whatever JSON value it is. -/
def decodeClaimV2Body (data : List Nat) : Except Unit Json :=
  match abiDecodeStrings 1 data with
  | none => Except.error ()
  | some fields =>
    match fields.get? 0 with
    | some s =>
      match jsonParse s with
      | some j => Except.ok j
      | none => Except.error ()
    | none => Except.error ()

/-- `decodeClaimV2` (source lines 366-374): catch wrapper around the body;
the catch returns JavaScript `null`, i.e. `Json.null`. -/
def decodeClaimV2 (data : List Nat) : Json :=
  match decodeClaimV2Body data with
  | Except.ok j => j
  | Except.error _ => Json.null

/-- The fallback chain inlined in `parseEwcData` (source lines 205-214):
try V3; if the result is `null` (the only falsy value V3/V1 can produce)
try V1; if still `null` take V2's result, whatever JSON value it is. -/
def decodeClaimChain (data : List Nat) : Json :=
  match decodeClaimV3 data with
  | some cd => jsonOfClaimData cd
  | none =>
    match decodeClaimV1 data with
    | some cd => jsonOfClaimData cd
    | none => decodeClaimV2 data

/-! Concrete ABI-encoded blobs used to exercise the decoders. -/

/-- A 32-byte big-endian ABI word holding `n`. -/
def abiWord (n : Nat) : List Nat :=
  (List.range 32).map (fun i => n / 256 ^ (31 - i) % 256)

/-- Tail encoding of the one-character string "A": length word then padded
content. -/
def tailA : List Nat :=
  abiWord 1 ++ 65 :: List.replicate 31 0

/-- ABI encoding of the 6-string tuple ("A","A","A","A","A","A"): a blob
that decodes under schema V1 but not under V3 (its eighth head word read is
out of bounds) nor under V2 (its single text field "A" is not JSON). -/
def blobV1 : List Nat :=
  abiWord 192 ++ abiWord 256 ++ abiWord 320 ++ abiWord 384 ++ abiWord 448 ++ abiWord 512 ++
    tailA ++ tailA ++ tailA ++ tailA ++ tailA ++ tailA

/-- ABI encoding of the 1-string tuple ("42"): a blob whose V2 decode
succeeds and yields the JSON number 42. -/
def blobNum42 : List Nat :=
  abiWord 32 ++ abiWord 2 ++ 52 :: 50 :: List.replicate 30 0

/-- The all-"A" record produced by decoding `blobV1` under schema V1. -/
def claimDataV1A : ClaimData :=
  { beneficiary := "A", region := "", countryCode := "A", periodStartDate := "A",
    periodEndDate := "A", purpose := "A", consumptionEntityID := "", proofID := "",
    location := "A" }

set_option maxRecDepth 40000 in
example : decodeClaimV1 blobV1 = some claimDataV1A := by decide

set_option maxRecDepth 40000 in
example : decodeClaimV3 blobV1 = none := by decide

set_option maxRecDepth 40000 in
example : decodeClaimV2 blobV1 = Json.null := by rfl

set_option maxRecDepth 40000 in
example : decodeClaimV2 blobNum42 = Json.num "42" := by rfl

example : decodeClaimV3 [] = none := by decide

example : decodeClaimV1 [] = none := by decide

example : decodeClaimV2 [] = Json.null := by rfl

/-! ### Event records (`src/unnamed/part_000`, lines 54-92)

`BigNumber` arguments (token ids, values, topics — uint256 on chain) are
`Nat`; `blockNumber` and `transactionHash` come from the raw ethers event. -/

/-- A `RedemptionStatementSet` event. -/
structure RedemptionSetEvent where
  batchId : String
  redemptionStatement : String
  storagePointer : String
  blockNumber : Nat
  transactionHash : String
deriving Repr, DecidableEq

/-- A `CertificateBatchMinted` event. -/
structure CertificateBatchMintedEvent where
  batchId : String
  certificateIds : List Nat
deriving Repr, DecidableEq

/-- A `TransferSingle` mint event (filtered on a zero `from` address);
`from` / `to` are renamed `fromAddr` / `toAddr`. -/
structure MintEvent where
  id : Nat
  value : Nat
  operator : String
  fromAddr : String
  toAddr : String
  transactionHash : String
deriving Repr, DecidableEq

/-- A `ClaimSingle` event; `claimData` is the raw byte blob. -/
structure ClaimSingleEvent where
  claimIssuer : String
  claimSubject : String
  topic : Nat
  id : Nat
  value : Nat
  claimData : List Nat
  transactionHash : String
deriving Repr, DecidableEq

/-! ### Derived rows (`src/unnamed/part_000`, lines 18-48) -/

/-- A Batch row. -/
structure Batch where
  id : String
  batchId : String
  redemptionStatement : String
  storagePointer : String
  certificateIds : List String
  transactionHash : String
deriving Repr, DecidableEq

/-- A Certificate row (`from` / `to` in the source are `fromAddr` /
`toAddr` here: both are reserved tokens in this Lean environment). -/
structure Certificate where
  id : String
  tokenId : String
  value : String
  operator : String
  fromAddr : String
  toAddr : String
  claimIds : List String
  transactionHash : String
deriving Repr, DecidableEq

/-- A Claim row. -/
structure Claim where
  id : String
  claimIssuer : String
  claimSubject : String
  topic : String
  certificateId : String
  value : String
  claimData : String
  claimDataDecoded : String
  transactionHash : String
deriving Repr, DecidableEq

/-- Hexadecimal rendering of a byte blob (the `claimData.toString()` column
value; the raw event carries the blob as a 0x-hex string). -/
def hexOfBytes (bs : List Nat) : String :=
  "0x" ++ bs.foldl (fun acc b => acc ++ String.mk [hexDigit (b / 16 % 16), hexDigit (b % 16)]) ""

/-- The Claim row pushed at source lines 217-229; `n` is `claims.length` at
push time. -/
def mkClaimRow (n : Nat) (ce : ClaimSingleEvent) : Claim :=
  { id := toString n, claimIssuer := ce.claimIssuer, claimSubject := ce.claimSubject,
    topic := toString ce.topic, certificateId := toString ce.id, value := toString ce.value,
    claimData := hexOfBytes ce.claimData,
    claimDataDecoded := jsonStringify (decodeClaimChain ce.claimData),
    transactionHash := ce.transactionHash }

/-- The Certificate row pushed at source lines 235-244; `n` is
`certificates.length` at push time. -/
def mkCertRow (n : Nat) (cid : Nat) (m : MintEvent) (claimIds : List String) : Certificate :=
  { id := toString n, tokenId := toString cid, value := toString m.value,
    operator := m.operator, fromAddr := m.fromAddr, toAddr := m.toAddr, claimIds := claimIds,
    transactionHash := m.transactionHash }

/-- The Batch row pushed at source lines 251-258; `n` is `batches.length`
at push time. -/
def mkBatchRow (n : Nat) (r : RedemptionSetEvent) (certIds : List String) : Batch :=
  { id := toString n, batchId := r.batchId, redemptionStatement := r.redemptionStatement,
    storagePointer := r.storagePointer, certificateIds := certIds,
    transactionHash := r.transactionHash }

/-! ### The correlation engine (`src/unnamed/part_000`, lines 154-259)

Each nested loop of `parseEwcData` becomes one accumulator-passing
recursion; the accumulators are the growing `claims` / `certificates` /
`batches` arrays and the per-batch `batchCertificateIds` and per-match
`claimIds` buffers. -/

/-- Innermost loop (lines 195-231): scan `claimSingleEvents` for events
whose id equals the current certificate id; for each match push the claim
row index into the `claimIds` buffer and the row itself into `claims`. -/
def claimsPass (cid : Nat) (ces : List ClaimSingleEvent) (claims : List Claim)
    (claimIds : List String) : List Claim × List String :=
  match ces with
  | [] => (claims, claimIds)
  | ce :: rest =>
    if ce.id = cid then
      claimsPass cid rest (claims ++ [mkClaimRow claims.length ce])
        (claimIds ++ [toString claims.length])
    else claimsPass cid rest claims claimIds

/-- Mint loop (lines 182-246): scan `mintEvents` for events whose minted id
equals the current certificate id; each match runs the claims pass, then
pushes the certificate row index into the batch buffer and the certificate
row itself. -/
def mintPass (cid : Nat) (mints : List MintEvent) (ces : List ClaimSingleEvent)
    (certs : List Certificate) (claims : List Claim) (batchCertIds : List String) :
    List Certificate × List Claim × List String :=
  match mints with
  | [] => (certs, claims, batchCertIds)
  | m :: rest =>
    if m.id = cid then
      let p := claimsPass cid ces claims []
      mintPass cid rest ces (certs ++ [mkCertRow certs.length cid m p.2]) p.1
        (batchCertIds ++ [toString certs.length])
    else mintPass cid rest ces certs claims batchCertIds

/-- Certificate-id loop (lines 180-247): iterate over the ids listed by the
matched `CertificateBatchMinted` event. -/
def cidPass (cids : List Nat) (mints : List MintEvent) (ces : List ClaimSingleEvent)
    (certs : List Certificate) (claims : List Claim) (batchCertIds : List String) :
    List Certificate × List Claim × List String :=
  match cids with
  | [] => (certs, claims, batchCertIds)
  | cid :: rest =>
    let p := mintPass cid mints ces certs claims batchCertIds
    cidPass rest mints ces p.1 p.2.1 p.2.2

/-- Batch-minted loop (lines 169-249): scan `certificateBatchMintedEvents`
for events whose batch id equals the current redemption event's batch id. -/
def batchMintedPass (bid : String) (bms : List CertificateBatchMintedEvent)
    (mints : List MintEvent) (ces : List ClaimSingleEvent)
    (certs : List Certificate) (claims : List Claim) (batchCertIds : List String) :
    List Certificate × List Claim × List String :=
  match bms with
  | [] => (certs, claims, batchCertIds)
  | bm :: rest =>
    if bid = bm.batchId then
      let p := cidPass bm.certificateIds mints ces certs claims batchCertIds
      batchMintedPass bid rest mints ces p.1 p.2.1 p.2.2
    else batchMintedPass bid rest mints ces certs claims batchCertIds

/-- Outer loop (lines 159-259): process redemption events, emitting one
Batch row each. -/
def redemptionLoop (rs : List RedemptionSetEvent) (bms : List CertificateBatchMintedEvent)
    (mints : List MintEvent) (ces : List ClaimSingleEvent)
    (batches : List Batch) (certs : List Certificate) (claims : List Claim) :
    List Batch × List Certificate × List Claim :=
  match rs with
  | [] => (batches, certs, claims)
  | r :: rest =>
    let p := batchMintedPass r.batchId bms mints ces certs claims []
    redemptionLoop rest bms mints ces (batches ++ [mkBatchRow batches.length r p.2.2])
      p.1 p.2.1

/-- Ordering on redemption events by ledger sequence number, used by the
source's `sort((a, b) => a.blockNumber - b.blockNumber)`. -/
def blockLe (a b : RedemptionSetEvent) : Prop :=
  a.blockNumber ≤ b.blockNumber

instance : DecidableRel blockLe := fun a b => Nat.decLe a.blockNumber b.blockNumber

instance : IsTotal RedemptionSetEvent blockLe := ⟨fun a b => Nat.le_total a.blockNumber b.blockNumber⟩

instance : IsTrans RedemptionSetEvent blockLe := ⟨fun _ _ _ => Nat.le_trans⟩

/-- JavaScript's stable `Array.prototype.sort` with the numeric comparator,
modelled as a stable sort (any two stable sorts agree elementwise). -/
def sortByBlockNumber (rs : List RedemptionSetEvent) : List RedemptionSetEvent :=
  List.insertionSort blockLe rs

/-- The pure core of `parseEwcData` (registry variant): from the four raw
event collections to the `(batches, certificates, claims)` tables. -/
def parseEwcData (rs : List RedemptionSetEvent) (bms : List CertificateBatchMintedEvent)
    (mints : List MintEvent) (ces : List ClaimSingleEvent) :
    List Batch × List Certificate × List Claim :=
  redemptionLoop (sortByBlockNumber rs) bms mints ces [] [] []

/-! ### Settlement reconciliation (`src/src/index.ts`, lines 292-339)

The signed/filled amount comparison loop of the agreement variant.  Note
the embedding mirrors source line 314 exactly: the loop over
`agreementFilledEvents` destructures `agreementSignedEvent.args` (not the
filled event), so the "filled" address and amount are read from the signed
event itself. -/

/-- The agreement metadata cached per address (`agreementData` accessor). -/
structure AgreementDataRec where
  buyer : String
  seller : String
  amount : Nat
  metadata : String
  valid : Bool
deriving Repr, DecidableEq

/-- An `AgreementSigned` event. -/
structure AgreementSignedEvent where
  agreementAddress : String
  buyer : String
  seller : String
  amount : Nat
  blockNumber : Nat
deriving Repr, DecidableEq

/-- An `AgreementFilled` event. -/
structure AgreementFilledEvent where
  agreementAddress : String
  certificateId : Nat
  amount : Nat
deriving Repr, DecidableEq

/-- One emitted amount-mismatch diagnostic (the `console.log` block at
source lines 321-335): the agreement address, the signed amount and the
"filled" address as printed. -/
structure AmountMismatchDiag where
  agreementAddress : String
  signedAmount : String
  filledAddress : String
deriving Repr, DecidableEq

/-- Inner loop over `agreementFilledEvents` (source lines 309-338) for one
signed event.  Source line 314 reads `agreementSignedEvent.args`, so both
the compared address and the compared amount come from `se`. -/
def filledScan (se : AgreementSignedEvent) (fes : List AgreementFilledEvent) :
    List AmountMismatchDiag :=
  match fes with
  | [] => []
  | _fe :: rest =>
    let agreementFilledAddress := se.agreementAddress
    let agreementFilledAmount := se.amount
    (if se.agreementAddress = agreementFilledAddress then
      if toString se.amount ≠ toString agreementFilledAmount then
        [{ agreementAddress := se.agreementAddress, signedAmount := toString se.amount,
           filledAddress := agreementFilledAddress }]
      else []
    else []) ++ filledScan se rest

/-- Ordering on signed events by ledger sequence number. -/
def signedBlockLe (a b : AgreementSignedEvent) : Prop :=
  a.blockNumber ≤ b.blockNumber

instance : DecidableRel signedBlockLe := fun a b => Nat.decLe a.blockNumber b.blockNumber

/-- Outer loop over signed agreements (source lines 293-339): skip invalid
agreements, scan the filled events for each remaining one. -/
def signedScan (ses : List AgreementSignedEvent) (fes : List AgreementFilledEvent)
    (dataOf : String → AgreementDataRec) : List AmountMismatchDiag :=
  match ses with
  | [] => []
  | se :: rest =>
    if (dataOf se.agreementAddress).valid = false then signedScan rest fes dataOf
    else filledScan se fes ++ signedScan rest fes dataOf

/-- The reconciliation diagnostics produced by the agreement variant's run:
signed events sorted by block number, invalid agreements skipped, every
signed/filled pair compared. -/
def signedFilledDiagnostics (ses : List AgreementSignedEvent)
    (fes : List AgreementFilledEvent) (dataOf : String → AgreementDataRec) :
    List AmountMismatchDiag :=
  signedScan (List.insertionSort signedBlockLe ses) fes dataOf

/-! Concrete events for the end-to-end scenarios. -/

/-- A redemption-set event for batch "B1". -/
def rB1 : RedemptionSetEvent :=
  { batchId := "B1", redemptionStatement := "rs", storagePointer := "sp",
    blockNumber := 1, transactionHash := "tx0" }

/-- A batch-minted event linking batch "B1" to certificate id 7. -/
def bmB1 : CertificateBatchMintedEvent :=
  { batchId := "B1", certificateIds := [7] }

/-- A mint event for certificate id 7 with value 1000. -/
def mint7 : MintEvent :=
  { id := 7, value := 1000, operator := "op", fromAddr := "0x0", toAddr := "0xA",
    transactionHash := "tx1" }

/-- A claim event against certificate id 7 with an undecodable blob. -/
def claim7 : ClaimSingleEvent :=
  { claimIssuer := "ci", claimSubject := "cs", topic := 1, id := 7, value := 400,
    claimData := [0], transactionHash := "tx2" }

set_option maxRecDepth 40000 in
example :
    parseEwcData [rB1] [bmB1] [mint7] [claim7] =
      ([{ id := "0", batchId := "B1", redemptionStatement := "rs", storagePointer := "sp",
          certificateIds := ["0"], transactionHash := "tx0" }],
       [{ id := "0", tokenId := "7", value := "1000", operator := "op", fromAddr := "0x0",
          toAddr := "0xA", claimIds := ["0"], transactionHash := "tx1" }],
       [{ id := "0", claimIssuer := "ci", claimSubject := "cs", topic := "1",
          certificateId := "7", value := "400", claimData := "0x00",
          claimDataDecoded := "null", transactionHash := "tx2" }]) := by decide

set_option maxRecDepth 40000 in
example :
    (parseEwcData [rB1] [bmB1] [mint7, mint7] [claim7]).2.1.length = 2 := by decide

/-! ### Closed-form characterization of the engine

The accumulator-passing loops above only ever append to the shared arrays.
The `...New` functions below compute exactly the appended rows, given the
array lengths (`nb` / `nc` / `nk` = current lengths of the batches /
certificates / claims arrays) the pass starts from; the `..._eq` lemmas
prove the loops equal to "old rows ++ new rows". -/

/-- Claim rows appended by one claims pass for certificate id `cid`, when
the claims array currently has `nk` rows. -/
def newClaims (cid : Nat) (ces : List ClaimSingleEvent) (nk : Nat) : List Claim :=
  match ces with
  | [] => []
  | ce :: rest =>
    if ce.id = cid then mkClaimRow nk ce :: newClaims cid rest (nk + 1)
    else newClaims cid rest nk

/-- Certificate and claim rows appended by one mint pass for certificate id
`cid`. -/
def mintNew (cid : Nat) (mints : List MintEvent) (ces : List ClaimSingleEvent) (nc nk : Nat) :
    List Certificate × List Claim :=
  match mints with
  | [] => ([], [])
  | m :: rest =>
    if m.id = cid then
      let cls := newClaims cid ces nk
      let p := mintNew cid rest ces (nc + 1) (nk + cls.length)
      (mkCertRow nc cid m ((List.range' nk cls.length).map (fun i => toString i)) :: p.1,
       cls ++ p.2)
    else mintNew cid rest ces nc nk

/-- Rows appended while iterating the certificate ids of one matched
batch-minted event. -/
def cidNew (cids : List Nat) (mints : List MintEvent) (ces : List ClaimSingleEvent) (nc nk : Nat) :
    List Certificate × List Claim :=
  match cids with
  | [] => ([], [])
  | cid :: rest =>
    let p := mintNew cid mints ces nc nk
    let q := cidNew rest mints ces (nc + p.1.length) (nk + p.2.length)
    (p.1 ++ q.1, p.2 ++ q.2)

/-- Rows appended by one whole batch pass (all batch-minted events matching
batch id `bid`). -/
def batchNew (bid : String) (bms : List CertificateBatchMintedEvent)
    (mints : List MintEvent) (ces : List ClaimSingleEvent) (nc nk : Nat) :
    List Certificate × List Claim :=
  match bms with
  | [] => ([], [])
  | bm :: rest =>
    if bid = bm.batchId then
      let p := cidNew bm.certificateIds mints ces nc nk
      let q := batchNew bid rest mints ces (nc + p.1.length) (nk + p.2.length)
      (p.1 ++ q.1, p.2 ++ q.2)
    else batchNew bid rest mints ces nc nk

/-- All rows produced by the outer redemption loop. -/
def redNew (rs : List RedemptionSetEvent) (bms : List CertificateBatchMintedEvent)
    (mints : List MintEvent) (ces : List ClaimSingleEvent) (nb nc nk : Nat) :
    List Batch × List Certificate × List Claim :=
  match rs with
  | [] => ([], [], [])
  | r :: rest =>
    let p := batchNew r.batchId bms mints ces nc nk
    let q := redNew rest bms mints ces (nb + 1) (nc + p.1.length) (nk + p.2.length)
    (mkBatchRow nb r ((List.range' nc p.1.length).map (fun i => toString i)) :: q.1,
     p.1 ++ q.2.1, p.2 ++ q.2.2)

/-- Unfolding of `batchNew` at a cons cell, with the let bindings expanded. -/
theorem batchNew_cons (bid : String) (bm : CertificateBatchMintedEvent)
    (rest : List CertificateBatchMintedEvent) (mints : List MintEvent)
    (ces : List ClaimSingleEvent) (nc nk : Nat) :
    batchNew bid (bm :: rest) mints ces nc nk =
      if bid = bm.batchId then
        ((cidNew bm.certificateIds mints ces nc nk).1 ++
          (batchNew bid rest mints ces (nc + (cidNew bm.certificateIds mints ces nc nk).1.length)
            (nk + (cidNew bm.certificateIds mints ces nc nk).2.length)).1,
         (cidNew bm.certificateIds mints ces nc nk).2 ++
          (batchNew bid rest mints ces (nc + (cidNew bm.certificateIds mints ces nc nk).1.length)
            (nk + (cidNew bm.certificateIds mints ces nc nk).2.length)).2)
      else batchNew bid rest mints ces nc nk := rfl

/-- Unfolding of `redNew` at a cons cell, with the let bindings expanded. -/
theorem redNew_cons (r : RedemptionSetEvent) (rest : List RedemptionSetEvent)
    (bms : List CertificateBatchMintedEvent) (mints : List MintEvent)
    (ces : List ClaimSingleEvent) (nb nc nk : Nat) :
    redNew (r :: rest) bms mints ces nb nc nk =
      (mkBatchRow nb r ((List.range' nc (batchNew r.batchId bms mints ces nc nk).1.length).map
          (fun i => toString i)) ::
        (redNew rest bms mints ces (nb + 1) (nc + (batchNew r.batchId bms mints ces nc nk).1.length)
          (nk + (batchNew r.batchId bms mints ces nc nk).2.length)).1,
       (batchNew r.batchId bms mints ces nc nk).1 ++
        (redNew rest bms mints ces (nb + 1) (nc + (batchNew r.batchId bms mints ces nc nk).1.length)
          (nk + (batchNew r.batchId bms mints ces nc nk).2.length)).2.1,
       (batchNew r.batchId bms mints ces nc nk).2 ++
        (redNew rest bms mints ces (nb + 1) (nc + (batchNew r.batchId bms mints ces nc nk).1.length)
          (nk + (batchNew r.batchId bms mints ces nc nk).2.length)).2.2) := rfl

theorem range'_split (s a b : Nat) :
    List.range' s (a + b) = List.range' s a ++ List.range' (s + a) b := by
  have h := List.range'_append s a b 1
  rw [Nat.one_mul] at h
  rw [Nat.add_comm a b, ← h]

theorem claimsPass_eq (ces : List ClaimSingleEvent) (cid : Nat) (claims : List Claim)
    (acc : List String) :
    claimsPass cid ces claims acc =
      (claims ++ newClaims cid ces claims.length,
       acc ++ (List.range' claims.length (newClaims cid ces claims.length).length).map
         (fun i => toString i)) := by
  induction ces generalizing claims acc with
  | nil => simp [claimsPass, newClaims]
  | cons ce rest ih =>
    by_cases h : ce.id = cid
    · rw [claimsPass, if_pos h, ih]
      simp [newClaims, h, List.range'_succ, List.append_assoc]
    · rw [claimsPass, if_neg h, ih]
      simp [newClaims, h]

theorem mintPass_eq (mints : List MintEvent) (cid : Nat) (ces : List ClaimSingleEvent)
    (certs : List Certificate) (claims : List Claim) (acc : List String) :
    mintPass cid mints ces certs claims acc =
      (certs ++ (mintNew cid mints ces certs.length claims.length).1,
       claims ++ (mintNew cid mints ces certs.length claims.length).2,
       acc ++ (List.range' certs.length (mintNew cid mints ces certs.length claims.length).1.length).map
         (fun i => toString i)) := by
  induction mints generalizing certs claims acc with
  | nil => simp [mintPass, mintNew]
  | cons m rest ih =>
    by_cases h : m.id = cid
    · rw [mintPass, if_pos h, claimsPass_eq, ih]
      simp only [mintNew, h, if_pos]
      simp [List.range'_succ, List.append_assoc, Nat.add_assoc]
    · rw [mintPass, if_neg h, ih]
      simp [mintNew, h]

theorem cidPass_eq (cids : List Nat) (mints : List MintEvent) (ces : List ClaimSingleEvent)
    (certs : List Certificate) (claims : List Claim) (acc : List String) :
    cidPass cids mints ces certs claims acc =
      (certs ++ (cidNew cids mints ces certs.length claims.length).1,
       claims ++ (cidNew cids mints ces certs.length claims.length).2,
       acc ++ (List.range' certs.length (cidNew cids mints ces certs.length claims.length).1.length).map
         (fun i => toString i)) := by
  induction cids generalizing certs claims acc with
  | nil => simp [cidPass, cidNew]
  | cons cid rest ih =>
    rw [cidPass, mintPass_eq, ih]
    simp only [cidNew]
    simp only [List.length_append, List.append_assoc, List.map_append, range'_split]

theorem batchMintedPass_eq (bms : List CertificateBatchMintedEvent) (bid : String)
    (mints : List MintEvent) (ces : List ClaimSingleEvent)
    (certs : List Certificate) (claims : List Claim) (acc : List String) :
    batchMintedPass bid bms mints ces certs claims acc =
      (certs ++ (batchNew bid bms mints ces certs.length claims.length).1,
       claims ++ (batchNew bid bms mints ces certs.length claims.length).2,
       acc ++ (List.range' certs.length (batchNew bid bms mints ces certs.length claims.length).1.length).map
         (fun i => toString i)) := by
  induction bms generalizing certs claims acc with
  | nil => simp [batchMintedPass, batchNew]
  | cons bm rest ih =>
    by_cases h : bid = bm.batchId
    · rw [batchMintedPass, if_pos h, cidPass_eq, ih]
      simp only [batchNew, h, if_pos]
      simp only [List.length_append, List.append_assoc, List.map_append, range'_split]
    · rw [batchMintedPass, if_neg h, ih]
      simp [batchNew, h]

theorem redemptionLoop_eq (rs : List RedemptionSetEvent) (bms : List CertificateBatchMintedEvent)
    (mints : List MintEvent) (ces : List ClaimSingleEvent)
    (batches : List Batch) (certs : List Certificate) (claims : List Claim) :
    redemptionLoop rs bms mints ces batches certs claims =
      (batches ++ (redNew rs bms mints ces batches.length certs.length claims.length).1,
       certs ++ (redNew rs bms mints ces batches.length certs.length claims.length).2.1,
       claims ++ (redNew rs bms mints ces batches.length certs.length claims.length).2.2) := by
  induction rs generalizing batches certs claims with
  | nil => simp [redemptionLoop, redNew]
  | cons r rest ih =>
    rw [redemptionLoop, batchMintedPass_eq, ih]
    simp only [redNew]
    simp [List.length_append, List.append_assoc, List.map_append, range'_split]

theorem parseEwcData_eq (rs : List RedemptionSetEvent) (bms : List CertificateBatchMintedEvent)
    (mints : List MintEvent) (ces : List ClaimSingleEvent) :
    parseEwcData rs bms mints ces = redNew (sortByBlockNumber rs) bms mints ces 0 0 0 := by
  rw [parseEwcData, redemptionLoop_eq]
  simp

/-! ### Index-free row content and the cross-product comprehension

`certCore` / `claimCore` forget the positional fields (row id, claim-id
back-references); everything else a row carries is a function of the
matched input events alone. -/

/-- The index-free content of a Certificate row. -/
structure CertCore where
  tokenId : String
  value : String
  operator : String
  fromAddr : String
  toAddr : String
  transactionHash : String
deriving Repr, DecidableEq

/-- The index-free content of a Claim row. -/
structure ClaimCore where
  claimIssuer : String
  claimSubject : String
  topic : String
  certificateId : String
  value : String
  claimData : String
  claimDataDecoded : String
  transactionHash : String
deriving Repr, DecidableEq

/-- Projection of a Certificate row to its index-free content. -/
def certCore (c : Certificate) : CertCore :=
  { tokenId := c.tokenId, value := c.value, operator := c.operator, fromAddr := c.fromAddr,
    toAddr := c.toAddr, transactionHash := c.transactionHash }

/-- Projection of a Claim row to its index-free content. -/
def claimCore (c : Claim) : ClaimCore :=
  { claimIssuer := c.claimIssuer, claimSubject := c.claimSubject, topic := c.topic,
    certificateId := c.certificateId, value := c.value, claimData := c.claimData,
    claimDataDecoded := c.claimDataDecoded, transactionHash := c.transactionHash }

/-- Certificate content generated by one (certificate id, mint event)
match. -/
def certOfMatch (cid : Nat) (m : MintEvent) : CertCore :=
  { tokenId := toString cid, value := toString m.value, operator := m.operator,
    fromAddr := m.fromAddr, toAddr := m.toAddr, transactionHash := m.transactionHash }

/-- Claim content generated by one matched claim event. -/
def claimOfEvent (ce : ClaimSingleEvent) : ClaimCore :=
  { claimIssuer := ce.claimIssuer, claimSubject := ce.claimSubject, topic := toString ce.topic,
    certificateId := toString ce.id, value := toString ce.value,
    claimData := hexOfBytes ce.claimData,
    claimDataDecoded := jsonStringify (decodeClaimChain ce.claimData),
    transactionHash := ce.transactionHash }

/-- The certificate table as the spec's cross product matched by key: for
each redemption event, each batch-minted event with string-equal batch id,
each listed certificate id, and each mint event with integer-equal minted
id, one row. -/
def certsSpecList (rs : List RedemptionSetEvent) (bms : List CertificateBatchMintedEvent)
    (mints : List MintEvent) : List CertCore :=
  rs.flatMap (fun r => (bms.filter (fun bm => r.batchId = bm.batchId)).flatMap (fun bm =>
    bm.certificateIds.flatMap (fun cid =>
      (mints.filter (fun m => m.id = cid)).map (certOfMatch cid))))

/-- The claim table as the spec's cross product matched by key: one row per
matching (redemption, batch-minted, certificate id, mint event, claim
event) combination. -/
def claimsSpecList (rs : List RedemptionSetEvent) (bms : List CertificateBatchMintedEvent)
    (mints : List MintEvent) (ces : List ClaimSingleEvent) : List ClaimCore :=
  rs.flatMap (fun r => (bms.filter (fun bm => r.batchId = bm.batchId)).flatMap (fun bm =>
    bm.certificateIds.flatMap (fun cid =>
      (mints.filter (fun m => m.id = cid)).flatMap (fun _m =>
        (ces.filter (fun ce => ce.id = cid)).map claimOfEvent))))

theorem newClaims_map_core (ces : List ClaimSingleEvent) (cid nk : Nat) :
    (newClaims cid ces nk).map claimCore =
      (ces.filter (fun ce => ce.id = cid)).map claimOfEvent := by
  induction ces generalizing nk with
  | nil => simp [newClaims]
  | cons ce rest ih =>
    by_cases h : ce.id = cid
    · simp [newClaims, h, ih, claimCore, claimOfEvent, mkClaimRow]
    · simp [newClaims, h, ih]

theorem newClaims_length (ces : List ClaimSingleEvent) (cid nk : Nat) :
    (newClaims cid ces nk).length = (ces.filter (fun ce => ce.id = cid)).length := by
  have h := congrArg List.length (newClaims_map_core ces cid nk)
  simpa using h

theorem mintNew_fst_map_core (mints : List MintEvent) (cid : Nat) (ces : List ClaimSingleEvent)
    (nc nk : Nat) :
    ((mintNew cid mints ces nc nk).1).map certCore =
      (mints.filter (fun m => m.id = cid)).map (certOfMatch cid) := by
  induction mints generalizing nc nk with
  | nil => simp [mintNew]
  | cons m rest ih =>
    by_cases h : m.id = cid
    · simp [mintNew, h, ih, certCore, certOfMatch, mkCertRow]
    · simp [mintNew, h, ih]

theorem mintNew_snd_map_core (mints : List MintEvent) (cid : Nat) (ces : List ClaimSingleEvent)
    (nc nk : Nat) :
    ((mintNew cid mints ces nc nk).2).map claimCore =
      (mints.filter (fun m => m.id = cid)).flatMap (fun _m =>
        (ces.filter (fun ce => ce.id = cid)).map claimOfEvent) := by
  induction mints generalizing nc nk with
  | nil => simp [mintNew]
  | cons m rest ih =>
    by_cases h : m.id = cid
    · simp [mintNew, h, ih, newClaims_map_core]
    · simp [mintNew, h, ih]

theorem cidNew_fst_map_core (cids : List Nat) (mints : List MintEvent)
    (ces : List ClaimSingleEvent) (nc nk : Nat) :
    ((cidNew cids mints ces nc nk).1).map certCore =
      cids.flatMap (fun cid => (mints.filter (fun m => m.id = cid)).map (certOfMatch cid)) := by
  induction cids generalizing nc nk with
  | nil => simp [cidNew]
  | cons cid rest ih => simp [cidNew, mintNew_fst_map_core, ih]

theorem cidNew_snd_map_core (cids : List Nat) (mints : List MintEvent)
    (ces : List ClaimSingleEvent) (nc nk : Nat) :
    ((cidNew cids mints ces nc nk).2).map claimCore =
      cids.flatMap (fun cid => (mints.filter (fun m => m.id = cid)).flatMap (fun _m =>
        (ces.filter (fun ce => ce.id = cid)).map claimOfEvent)) := by
  induction cids generalizing nc nk with
  | nil => simp [cidNew]
  | cons cid rest ih => simp [cidNew, mintNew_snd_map_core, ih]

theorem batchNew_fst_map_core (bms : List CertificateBatchMintedEvent) (bid : String)
    (mints : List MintEvent) (ces : List ClaimSingleEvent) (nc nk : Nat) :
    ((batchNew bid bms mints ces nc nk).1).map certCore =
      (bms.filter (fun bm => bid = bm.batchId)).flatMap (fun bm =>
        bm.certificateIds.flatMap (fun cid =>
          (mints.filter (fun m => m.id = cid)).map (certOfMatch cid))) := by
  induction bms generalizing nc nk with
  | nil => simp [batchNew]
  | cons bm rest ih =>
    by_cases h : bid = bm.batchId
    · subst h
      simp [batchNew, ih, cidNew_fst_map_core]
    · simp [batchNew, h, ih]

theorem batchNew_snd_map_core (bms : List CertificateBatchMintedEvent) (bid : String)
    (mints : List MintEvent) (ces : List ClaimSingleEvent) (nc nk : Nat) :
    ((batchNew bid bms mints ces nc nk).2).map claimCore =
      (bms.filter (fun bm => bid = bm.batchId)).flatMap (fun bm =>
        bm.certificateIds.flatMap (fun cid =>
          (mints.filter (fun m => m.id = cid)).flatMap (fun _m =>
            (ces.filter (fun ce => ce.id = cid)).map claimOfEvent))) := by
  induction bms generalizing nc nk with
  | nil => simp [batchNew]
  | cons bm rest ih =>
    by_cases h : bid = bm.batchId
    · subst h
      simp [batchNew, ih, cidNew_snd_map_core]
    · simp [batchNew, h, ih]

theorem redNew_certs_map_core (rs : List RedemptionSetEvent)
    (bms : List CertificateBatchMintedEvent) (mints : List MintEvent)
    (ces : List ClaimSingleEvent) (nb nc nk : Nat) :
    ((redNew rs bms mints ces nb nc nk).2.1).map certCore = certsSpecList rs bms mints := by
  induction rs generalizing nb nc nk with
  | nil => simp [redNew, certsSpecList]
  | cons r rest ih => simp [redNew, certsSpecList, batchNew_fst_map_core, ih, List.flatMap]

theorem redNew_claims_map_core (rs : List RedemptionSetEvent)
    (bms : List CertificateBatchMintedEvent) (mints : List MintEvent)
    (ces : List ClaimSingleEvent) (nb nc nk : Nat) :
    ((redNew rs bms mints ces nb nc nk).2.2).map claimCore = claimsSpecList rs bms mints ces := by
  induction rs generalizing nb nc nk with
  | nil => simp [redNew, claimsSpecList]
  | cons r rest ih => simp [redNew, claimsSpecList, batchNew_snd_map_core, ih, List.flatMap]


/-! ### Positional row ids and index-based back-references -/

theorem map_range'_ext (f : Nat → String) (s a b : Nat) (h : a = b) :
    (List.range' s a).map f = (List.range' s b).map f := by
  rw [h]

theorem newClaims_map_id (ces : List ClaimSingleEvent) (cid nk : Nat) :
    (newClaims cid ces nk).map (fun c => c.id) =
      (List.range' nk (newClaims cid ces nk).length).map (fun i => toString i) := by
  induction ces generalizing nk with
  | nil => simp [newClaims]
  | cons ce rest ih =>
    by_cases h : ce.id = cid
    · simp [newClaims, h, ih, mkClaimRow, List.range'_succ]
    · simp [newClaims, h, ih]

theorem mintNew_fst_map_id (mints : List MintEvent) (cid : Nat) (ces : List ClaimSingleEvent)
    (nc nk : Nat) :
    ((mintNew cid mints ces nc nk).1).map (fun c => c.id) =
      (List.range' nc (mintNew cid mints ces nc nk).1.length).map (fun i => toString i) := by
  induction mints generalizing nc nk with
  | nil => simp [mintNew]
  | cons m rest ih =>
    by_cases h : m.id = cid
    · simp [mintNew, h, ih, mkCertRow, List.range'_succ]
    · simp [mintNew, h, ih]

theorem mintNew_snd_map_id (mints : List MintEvent) (cid : Nat) (ces : List ClaimSingleEvent)
    (nc nk : Nat) :
    ((mintNew cid mints ces nc nk).2).map (fun c => c.id) =
      (List.range' nk (mintNew cid mints ces nc nk).2.length).map (fun i => toString i) := by
  induction mints generalizing nc nk with
  | nil => simp [mintNew]
  | cons m rest ih =>
    by_cases h : m.id = cid
    · simp only [mintNew, h, if_pos, List.map_append, List.length_append]
      rw [newClaims_map_id, ih, ← List.map_append, ← range'_split]
    · simp [mintNew, h, ih]

theorem cidNew_fst_map_id (cids : List Nat) (mints : List MintEvent)
    (ces : List ClaimSingleEvent) (nc nk : Nat) :
    ((cidNew cids mints ces nc nk).1).map (fun c => c.id) =
      (List.range' nc (cidNew cids mints ces nc nk).1.length).map (fun i => toString i) := by
  induction cids generalizing nc nk with
  | nil => simp [cidNew]
  | cons cid rest ih =>
    simp only [cidNew, List.map_append, List.length_append]
    rw [mintNew_fst_map_id, ih, ← List.map_append, ← range'_split]

theorem cidNew_snd_map_id (cids : List Nat) (mints : List MintEvent)
    (ces : List ClaimSingleEvent) (nc nk : Nat) :
    ((cidNew cids mints ces nc nk).2).map (fun c => c.id) =
      (List.range' nk (cidNew cids mints ces nc nk).2.length).map (fun i => toString i) := by
  induction cids generalizing nc nk with
  | nil => simp [cidNew]
  | cons cid rest ih =>
    simp only [cidNew, List.map_append, List.length_append]
    rw [mintNew_snd_map_id, ih, ← List.map_append, ← range'_split]

theorem batchNew_fst_map_id (bms : List CertificateBatchMintedEvent) (bid : String)
    (mints : List MintEvent) (ces : List ClaimSingleEvent) (nc nk : Nat) :
    ((batchNew bid bms mints ces nc nk).1).map (fun c => c.id) =
      (List.range' nc (batchNew bid bms mints ces nc nk).1.length).map (fun i => toString i) := by
  induction bms generalizing nc nk with
  | nil => simp [batchNew]
  | cons bm rest ih =>
    by_cases h : bid = bm.batchId
    · subst h
      simp only [batchNew, if_pos, List.map_append, List.length_append]
      rw [cidNew_fst_map_id, ih, ← List.map_append, ← range'_split]
    · simp [batchNew, h, ih]

theorem batchNew_snd_map_id (bms : List CertificateBatchMintedEvent) (bid : String)
    (mints : List MintEvent) (ces : List ClaimSingleEvent) (nc nk : Nat) :
    ((batchNew bid bms mints ces nc nk).2).map (fun c => c.id) =
      (List.range' nk (batchNew bid bms mints ces nc nk).2.length).map (fun i => toString i) := by
  induction bms generalizing nc nk with
  | nil => simp [batchNew]
  | cons bm rest ih =>
    by_cases h : bid = bm.batchId
    · subst h
      simp only [batchNew, if_pos, List.map_append, List.length_append]
      rw [cidNew_snd_map_id, ih, ← List.map_append, ← range'_split]
    · simp [batchNew, h, ih]

theorem redNew_certs_map_id (rs : List RedemptionSetEvent)
    (bms : List CertificateBatchMintedEvent) (mints : List MintEvent)
    (ces : List ClaimSingleEvent) (nb nc nk : Nat) :
    ((redNew rs bms mints ces nb nc nk).2.1).map (fun c => c.id) =
      (List.range' nc (redNew rs bms mints ces nb nc nk).2.1.length).map (fun i => toString i) := by
  induction rs generalizing nb nc nk with
  | nil => simp [redNew]
  | cons r rest ih =>
    simp only [redNew, List.map_append, List.length_append]
    rw [batchNew_fst_map_id, ih, ← List.map_append, ← range'_split]

theorem redNew_claims_map_id (rs : List RedemptionSetEvent)
    (bms : List CertificateBatchMintedEvent) (mints : List MintEvent)
    (ces : List ClaimSingleEvent) (nb nc nk : Nat) :
    ((redNew rs bms mints ces nb nc nk).2.2).map (fun c => c.id) =
      (List.range' nk (redNew rs bms mints ces nb nc nk).2.2.length).map (fun i => toString i) := by
  induction rs generalizing nb nc nk with
  | nil => simp [redNew]
  | cons r rest ih =>
    simp only [redNew, List.map_append, List.length_append]
    rw [batchNew_snd_map_id, ih, ← List.map_append, ← range'_split]

theorem redNew_batches_map_id (rs : List RedemptionSetEvent)
    (bms : List CertificateBatchMintedEvent) (mints : List MintEvent)
    (ces : List ClaimSingleEvent) (nb nc nk : Nat) :
    ((redNew rs bms mints ces nb nc nk).1).map (fun b => b.id) =
      (List.range' nb (redNew rs bms mints ces nb nc nk).1.length).map (fun i => toString i) := by
  induction rs generalizing nb nc nk with
  | nil => simp [redNew]
  | cons r rest ih =>
    simp only [redNew, List.map_cons, List.length_cons]
    rw [ih, List.range'_succ]
    simp [mkBatchRow]

/-! The concatenations of back-reference lists cover exactly the rows
emitted, in order. -/

theorem mintNew_fst_bind_claimIds (mints : List MintEvent) (cid : Nat)
    (ces : List ClaimSingleEvent) (nc nk : Nat) :
    ((mintNew cid mints ces nc nk).1).flatMap (fun c => c.claimIds) =
      (List.range' nk (mintNew cid mints ces nc nk).2.length).map (fun i => toString i) := by
  induction mints generalizing nc nk with
  | nil => simp [mintNew]
  | cons m rest ih =>
    by_cases h : m.id = cid
    · simp only [mintNew, h, if_pos, List.flatMap_cons, List.length_append, mkCertRow]
      rw [ih, ← List.map_append, ← range'_split]
    · simp [mintNew, h, ih]

theorem cidNew_fst_bind_claimIds (cids : List Nat) (mints : List MintEvent)
    (ces : List ClaimSingleEvent) (nc nk : Nat) :
    ((cidNew cids mints ces nc nk).1).flatMap (fun c => c.claimIds) =
      (List.range' nk (cidNew cids mints ces nc nk).2.length).map (fun i => toString i) := by
  induction cids generalizing nc nk with
  | nil => simp [cidNew]
  | cons cid rest ih =>
    simp only [cidNew, List.flatMap_append, List.length_append]
    rw [mintNew_fst_bind_claimIds, ih, ← List.map_append, ← range'_split]

theorem batchNew_fst_bind_claimIds (bms : List CertificateBatchMintedEvent) (bid : String)
    (mints : List MintEvent) (ces : List ClaimSingleEvent) (nc nk : Nat) :
    ((batchNew bid bms mints ces nc nk).1).flatMap (fun c => c.claimIds) =
      (List.range' nk (batchNew bid bms mints ces nc nk).2.length).map (fun i => toString i) := by
  induction bms generalizing nc nk with
  | nil => simp [batchNew]
  | cons bm rest ih =>
    by_cases h : bid = bm.batchId
    · subst h
      simp only [batchNew, if_pos, List.flatMap_append, List.length_append]
      rw [cidNew_fst_bind_claimIds, ih, ← List.map_append, ← range'_split]
    · simp [batchNew, h, ih]

theorem redNew_certs_bind_claimIds (rs : List RedemptionSetEvent)
    (bms : List CertificateBatchMintedEvent) (mints : List MintEvent)
    (ces : List ClaimSingleEvent) (nb nc nk : Nat) :
    ((redNew rs bms mints ces nb nc nk).2.1).flatMap (fun c => c.claimIds) =
      (List.range' nk (redNew rs bms mints ces nb nc nk).2.2.length).map (fun i => toString i) := by
  induction rs generalizing nb nc nk with
  | nil => simp [redNew]
  | cons r rest ih =>
    simp only [redNew, List.flatMap_append, List.length_append]
    rw [batchNew_fst_bind_claimIds, ih, ← List.map_append, ← range'_split]

theorem redNew_batches_bind_certIds (rs : List RedemptionSetEvent)
    (bms : List CertificateBatchMintedEvent) (mints : List MintEvent)
    (ces : List ClaimSingleEvent) (nb nc nk : Nat) :
    ((redNew rs bms mints ces nb nc nk).1).flatMap (fun b => b.certificateIds) =
      (List.range' nc (redNew rs bms mints ces nb nc nk).2.1.length).map (fun i => toString i) := by
  induction rs generalizing nb nc nk with
  | nil => simp [redNew]
  | cons r rest ih =>
    simp only [redNew, List.flatMap_cons, List.length_append, mkBatchRow]
    rw [ih, ← List.map_append, ← range'_split]


/-! ### Certificate-to-claim back-reference consistency -/

/-- Every certificate in `certsNew` refers through its `claimIds` (decimal
strings of global row indices, base offset `nk`) to claim rows inside
`claimsNew` whose `certificateId` equals the certificate's `tokenId`. -/
def IdxConsistent (nk : Nat) (certsNew : List Certificate) (claimsNew : List Claim) : Prop :=
  ∀ c ∈ certsNew, ∀ s ∈ c.claimIds, ∃ j, s = toString j ∧ nk ≤ j ∧ j - nk < claimsNew.length ∧
    ∃ cl, claimsNew[j - nk]? = some cl ∧ cl.certificateId = c.tokenId

theorem IdxConsistent_append (nk : Nat) (p1 q1 : List Certificate) (p2 q2 : List Claim)
    (h1 : IdxConsistent nk p1 p2) (h2 : IdxConsistent (nk + p2.length) q1 q2) :
    IdxConsistent nk (p1 ++ q1) (p2 ++ q2) := by
  intro c hc s hs
  rcases List.mem_append.mp hc with hc1 | hc2
  · obtain ⟨j, hj1, hj2, hj3, cl, hcl, hcid⟩ := h1 c hc1 s hs
    refine ⟨j, hj1, hj2, ?_, cl, ?_, hcid⟩
    · simp only [List.length_append]
      omega
    · rw [List.getElem?_append]
      rw [if_pos hj3]
      exact hcl
  · obtain ⟨j, hj1, hj2, hj3, cl, hcl, hcid⟩ := h2 c hc2 s hs
    refine ⟨j, hj1, by omega, ?_, cl, ?_, hcid⟩
    · simp only [List.length_append]
      omega
    · rw [List.getElem?_append_right (by omega)]
      have harith : j - nk - p2.length = j - (nk + p2.length) := by omega
      rw [harith]
      exact hcl

theorem newClaims_mem_certificateId (ces : List ClaimSingleEvent) (cid nk : Nat) :
    ∀ cl ∈ newClaims cid ces nk, cl.certificateId = toString cid := by
  induction ces generalizing nk with
  | nil => simp [newClaims]
  | cons ce rest ih =>
    by_cases h : ce.id = cid
    · intro cl hcl
      rcases List.mem_cons.mp (by simpa [newClaims, h] using hcl) with heq | hmem
      · subst heq
        simp [mkClaimRow, h]
      · exact ih _ cl hmem
    · intro cl hcl
      exact ih _ cl (by simpa [newClaims, h] using hcl)

theorem mintNew_head_consistent (cid nc nk : Nat) (m : MintEvent) (ces : List ClaimSingleEvent) :
    IdxConsistent nk
      [mkCertRow nc cid m ((List.range' nk (newClaims cid ces nk).length).map (fun i => toString i))]
      (newClaims cid ces nk) := by
  intro c hc s hs
  have hceq : c = mkCertRow nc cid m
      ((List.range' nk (newClaims cid ces nk).length).map (fun i => toString i)) := by
    simpa using hc
  subst hceq
  simp only [mkCertRow] at hs
  obtain ⟨j, hj, rfl⟩ := List.mem_map.mp hs
  obtain ⟨hj1, hj2⟩ := List.mem_range'_1.mp hj
  have hlt : j - nk < (newClaims cid ces nk).length := by omega
  refine ⟨j, rfl, hj1, hlt, (newClaims cid ces nk)[j - nk], List.getElem?_eq_getElem hlt, ?_⟩
  have hmem := List.getElem_mem hlt
  rw [newClaims_mem_certificateId ces cid nk _ hmem]
  simp [mkCertRow]

theorem mintNew_idxConsistent (mints : List MintEvent) (cid : Nat) (ces : List ClaimSingleEvent)
    (nc nk : Nat) :
    IdxConsistent nk (mintNew cid mints ces nc nk).1 (mintNew cid mints ces nc nk).2 := by
  induction mints generalizing nc nk with
  | nil => intro c hc; simp [mintNew] at hc
  | cons m rest ih =>
    by_cases h : m.id = cid
    · have happ := IdxConsistent_append nk
        [mkCertRow nc cid m ((List.range' nk (newClaims cid ces nk).length).map (fun i => toString i))]
        (mintNew cid rest ces (nc + 1) (nk + (newClaims cid ces nk).length)).1
        (newClaims cid ces nk)
        (mintNew cid rest ces (nc + 1) (nk + (newClaims cid ces nk).length)).2
        (mintNew_head_consistent cid nc nk m ces) (ih _ _)
      simpa [mintNew, h] using happ
    · simpa [mintNew, h] using ih nc nk

theorem cidNew_idxConsistent (cids : List Nat) (mints : List MintEvent)
    (ces : List ClaimSingleEvent) (nc nk : Nat) :
    IdxConsistent nk (cidNew cids mints ces nc nk).1 (cidNew cids mints ces nc nk).2 := by
  induction cids generalizing nc nk with
  | nil => intro c hc; simp [cidNew] at hc
  | cons cid rest ih =>
    have happ := IdxConsistent_append nk
      (mintNew cid mints ces nc nk).1
      (cidNew rest mints ces (nc + (mintNew cid mints ces nc nk).1.length)
        (nk + (mintNew cid mints ces nc nk).2.length)).1
      (mintNew cid mints ces nc nk).2
      (cidNew rest mints ces (nc + (mintNew cid mints ces nc nk).1.length)
        (nk + (mintNew cid mints ces nc nk).2.length)).2
      (mintNew_idxConsistent mints cid ces nc nk) (ih _ _)
    simpa [cidNew] using happ

theorem batchNew_idxConsistent (bms : List CertificateBatchMintedEvent) (bid : String)
    (mints : List MintEvent) (ces : List ClaimSingleEvent) (nc nk : Nat) :
    IdxConsistent nk (batchNew bid bms mints ces nc nk).1 (batchNew bid bms mints ces nc nk).2 := by
  induction bms generalizing nc nk with
  | nil => intro c hc; simp [batchNew] at hc
  | cons bm rest ih =>
    by_cases h : bid = bm.batchId
    · subst h
      have happ := IdxConsistent_append nk
        (cidNew bm.certificateIds mints ces nc nk).1
        (batchNew bm.batchId rest mints ces (nc + (cidNew bm.certificateIds mints ces nc nk).1.length)
          (nk + (cidNew bm.certificateIds mints ces nc nk).2.length)).1
        (cidNew bm.certificateIds mints ces nc nk).2
        (batchNew bm.batchId rest mints ces (nc + (cidNew bm.certificateIds mints ces nc nk).1.length)
          (nk + (cidNew bm.certificateIds mints ces nc nk).2.length)).2
        (cidNew_idxConsistent bm.certificateIds mints ces nc nk) (ih _ _)
      simpa [batchNew] using happ
    · simpa [batchNew, h] using ih nc nk

theorem redNew_idxConsistent (rs : List RedemptionSetEvent)
    (bms : List CertificateBatchMintedEvent) (mints : List MintEvent)
    (ces : List ClaimSingleEvent) (nb nc nk : Nat) :
    IdxConsistent nk (redNew rs bms mints ces nb nc nk).2.1 (redNew rs bms mints ces nb nc nk).2.2 := by
  induction rs generalizing nb nc nk with
  | nil => intro c hc; simp [redNew] at hc
  | cons r rest ih =>
    have happ := IdxConsistent_append nk
      (batchNew r.batchId bms mints ces nc nk).1
      (redNew rest bms mints ces (nb + 1) (nc + (batchNew r.batchId bms mints ces nc nk).1.length)
        (nk + (batchNew r.batchId bms mints ces nc nk).2.length)).2.1
      (batchNew r.batchId bms mints ces nc nk).2
      (redNew rest bms mints ces (nb + 1) (nc + (batchNew r.batchId bms mints ces nc nk).1.length)
        (nk + (batchNew r.batchId bms mints ces nc nk).2.length)).2.2
      (batchNew_idxConsistent bms r.batchId mints ces nc nk) (ih _ _ _)
    simpa [redNew] using happ

/-! ### Empty matches, removal of unmatched events, provenance -/

theorem batchNew_eq_nil (bms : List CertificateBatchMintedEvent) (bid : String)
    (mints : List MintEvent) (ces : List ClaimSingleEvent) (nc nk : Nat)
    (h : ∀ bm ∈ bms, ¬ bid = bm.batchId) :
    batchNew bid bms mints ces nc nk = ([], []) := by
  induction bms with
  | nil => simp [batchNew]
  | cons bm rest ih =>
    have hbm : ¬ bid = bm.batchId := h bm (List.mem_cons_self bm rest)
    rw [batchNew]
    rw [if_neg hbm]
    exact ih (fun x hx => h x (List.mem_cons_of_mem bm hx))

theorem redNew_batches_length (rs : List RedemptionSetEvent)
    (bms : List CertificateBatchMintedEvent) (mints : List MintEvent)
    (ces : List ClaimSingleEvent) (nb nc nk : Nat) :
    (redNew rs bms mints ces nb nc nk).1.length = rs.length := by
  induction rs generalizing nb nc nk with
  | nil => simp [redNew]
  | cons r rest ih => simp [redNew, ih]

theorem redNew_batches_map_content (rs : List RedemptionSetEvent)
    (bms : List CertificateBatchMintedEvent) (mints : List MintEvent)
    (ces : List ClaimSingleEvent) (nb nc nk : Nat) :
    ((redNew rs bms mints ces nb nc nk).1).map
        (fun b => (b.batchId, b.redemptionStatement, b.storagePointer, b.transactionHash)) =
      rs.map (fun r => (r.batchId, r.redemptionStatement, r.storagePointer, r.transactionHash)) := by
  induction rs generalizing nb nc nk with
  | nil => simp [redNew]
  | cons r rest ih => simp [redNew, ih, mkBatchRow]

theorem redNew_batch_at (rs : List RedemptionSetEvent)
    (bms : List CertificateBatchMintedEvent) (mints : List MintEvent)
    (ces : List ClaimSingleEvent) (nb nc nk : Nat) (i : Nat) (r : RedemptionSetEvent)
    (hr : rs[i]? = some r) (h : ∀ bm ∈ bms, ¬ r.batchId = bm.batchId) :
    ∃ b, (redNew rs bms mints ces nb nc nk).1[i]? = some b ∧ b.batchId = r.batchId ∧
      b.certificateIds = [] := by
  induction rs generalizing i nb nc nk with
  | nil => simp at hr
  | cons r0 rest ih =>
    match i with
    | 0 =>
      have hr0 : r0 = r := by simpa using hr
      subst hr0
      refine ⟨mkBatchRow nb r0
        ((List.range' nc (batchNew r0.batchId bms mints ces nc nk).1.length).map
          (fun i => toString i)), ?_, ?_, ?_⟩
      · simp [redNew]
      · simp [mkBatchRow]
      · rw [batchNew_eq_nil bms r0.batchId mints ces nc nk h]
        simp [mkBatchRow]
    | i + 1 =>
      have hr' : rest[i]? = some r := by simpa using hr
      obtain ⟨b, hb, hb1, hb2⟩ := ih (nb + 1)
        (nc + (batchNew r0.batchId bms mints ces nc nk).1.length)
        (nk + (batchNew r0.batchId bms mints ces nc nk).2.length) i hr'
      exact ⟨b, by simpa [redNew] using hb, hb1, hb2⟩

theorem batchNew_erase_unmatched (bms1 bms2 : List CertificateBatchMintedEvent)
    (e : CertificateBatchMintedEvent) (bid : String) (mints : List MintEvent)
    (ces : List ClaimSingleEvent) (nc nk : Nat) (h : ¬ bid = e.batchId) :
    batchNew bid (bms1 ++ e :: bms2) mints ces nc nk =
      batchNew bid (bms1 ++ bms2) mints ces nc nk := by
  induction bms1 generalizing nc nk with
  | nil =>
    rw [List.nil_append, List.nil_append, batchNew]
    rw [if_neg h]
  | cons bm rest ih =>
    rw [List.cons_append, List.cons_append, batchNew_cons, batchNew_cons]
    by_cases hbm : bid = bm.batchId
    · rw [if_pos hbm, if_pos hbm, ih]
    · rw [if_neg hbm, if_neg hbm, ih]

theorem redNew_erase_unmatched (rs : List RedemptionSetEvent)
    (bms1 bms2 : List CertificateBatchMintedEvent) (e : CertificateBatchMintedEvent)
    (mints : List MintEvent) (ces : List ClaimSingleEvent) (nb nc nk : Nat)
    (h : ∀ r ∈ rs, ¬ r.batchId = e.batchId) :
    redNew rs (bms1 ++ e :: bms2) mints ces nb nc nk =
      redNew rs (bms1 ++ bms2) mints ces nb nc nk := by
  induction rs generalizing nb nc nk with
  | nil => simp [redNew]
  | cons r rest ih =>
    rw [redNew_cons, redNew_cons]
    rw [batchNew_erase_unmatched bms1 bms2 e r.batchId mints ces nc nk
      (h r (List.mem_cons_self r rest))]
    rw [ih _ _ _ (fun x hx => h x (List.mem_cons_of_mem r hx))]

theorem certsSpecList_mem_dest (rs : List RedemptionSetEvent)
    (bms : List CertificateBatchMintedEvent) (mints : List MintEvent) (x : CertCore)
    (hx : x ∈ certsSpecList rs bms mints) :
    ∃ r ∈ rs, ∃ bm ∈ bms, r.batchId = bm.batchId ∧ ∃ cid ∈ bm.certificateIds,
      ∃ m ∈ mints, m.id = cid ∧ x = certOfMatch cid m := by
  obtain ⟨r, hr, hx1⟩ := List.mem_flatMap.mp hx
  obtain ⟨bm, hbm, hx2⟩ := List.mem_flatMap.mp hx1
  obtain ⟨hbm', hbmkey⟩ := List.mem_filter.mp hbm
  obtain ⟨cid, hcid, hx3⟩ := List.mem_flatMap.mp hx2
  obtain ⟨m, hm, hx4⟩ := List.mem_map.mp hx3
  obtain ⟨hm', hmkey⟩ := List.mem_filter.mp hm
  exact ⟨r, hr, bm, hbm', by simpa using hbmkey, cid, hcid, m, hm',
    by simpa using hmkey, hx4.symm⟩

theorem claimsSpecList_mem_dest (rs : List RedemptionSetEvent)
    (bms : List CertificateBatchMintedEvent) (mints : List MintEvent)
    (ces : List ClaimSingleEvent) (x : ClaimCore)
    (hx : x ∈ claimsSpecList rs bms mints ces) :
    ∃ r ∈ rs, ∃ bm ∈ bms, r.batchId = bm.batchId ∧ ∃ cid ∈ bm.certificateIds,
      ∃ m ∈ mints, m.id = cid ∧ ∃ ce ∈ ces, ce.id = cid ∧ x = claimOfEvent ce := by
  obtain ⟨r, hr, hx1⟩ := List.mem_flatMap.mp hx
  obtain ⟨bm, hbm, hx2⟩ := List.mem_flatMap.mp hx1
  obtain ⟨hbm', hbmkey⟩ := List.mem_filter.mp hbm
  obtain ⟨cid, hcid, hx3⟩ := List.mem_flatMap.mp hx2
  obtain ⟨m, hm, hx4⟩ := List.mem_flatMap.mp hx3
  obtain ⟨hm', hmkey⟩ := List.mem_filter.mp hm
  obtain ⟨ce, hce, hx5⟩ := List.mem_map.mp hx4
  obtain ⟨hce', hcekey⟩ := List.mem_filter.mp hce
  exact ⟨r, hr, bm, hbm', by simpa using hbmkey, cid, hcid, m, hm',
    by simpa using hmkey, ce, hce', by simpa using hcekey, hx5.symm⟩

theorem sortByBlockNumber_perm (rs : List RedemptionSetEvent) :
    (sortByBlockNumber rs).Perm rs :=
  List.perm_insertionSort blockLe rs

theorem sortByBlockNumber_sorted (rs : List RedemptionSetEvent) :
    List.Sorted blockLe (sortByBlockNumber rs) :=
  List.sorted_insertionSort blockLe rs

/-! ### Support for the claim theorems -/

/-- The all-empty `ClaimData` record. -/
def emptyClaimData : ClaimData :=
  { beneficiary := "", region := "", countryCode := "", periodStartDate := "",
    periodEndDate := "", purpose := "", consumptionEntityID := "", proofID := "",
    location := "" }

/-- Is this JSON value an object (a structured record)? -/
def jsonIsObj : Json → Bool
  | Json.obj _ => true
  | _ => false

theorem decodeClaimChain_of_v3 (data : List Nat) (cd3 : ClaimData)
    (h : decodeClaimV3 data = some cd3) : decodeClaimChain data = jsonOfClaimData cd3 := by
  unfold decodeClaimChain
  rw [h]

theorem decodeClaimChain_of_v1 (data : List Nat) (cd : ClaimData)
    (h3 : decodeClaimV3 data = none) (h1 : decodeClaimV1 data = some cd) :
    decodeClaimChain data = jsonOfClaimData cd := by
  unfold decodeClaimChain
  rw [h3, h1]

theorem decodeClaimChain_of_v3_v1_fail (data : List Nat)
    (h3 : decodeClaimV3 data = none) (h1 : decodeClaimV1 data = none) :
    decodeClaimChain data = decodeClaimV2 data := by
  unfold decodeClaimChain
  rw [h3, h1]

theorem decodeClaimV1_catch (data : List Nat) (e : Unit)
    (h : decodeClaimV1Body data = Except.error e) : decodeClaimV1 data = none := by
  unfold decodeClaimV1
  rw [h]

theorem decodeClaimV3_catch (data : List Nat) (e : Unit)
    (h : decodeClaimV3Body data = Except.error e) : decodeClaimV3 data = none := by
  unfold decodeClaimV3
  rw [h]

theorem decodeClaimV2_catch (data : List Nat) (e : Unit)
    (h : decodeClaimV2Body data = Except.error e) : decodeClaimV2 data = Json.null := by
  unfold decodeClaimV2
  rw [h]

theorem decodeClaimV1_ok (data : List Nat) (v : Option ClaimData)
    (h : decodeClaimV1Body data = Except.ok v) : decodeClaimV1 data = v := by
  unfold decodeClaimV1
  rw [h]

theorem decodeClaimV3_ok (data : List Nat) (v : Option ClaimData)
    (h : decodeClaimV3Body data = Except.ok v) : decodeClaimV3 data = v := by
  unfold decodeClaimV3
  rw [h]

theorem decodeClaimV2_ok (data : List Nat) (j : Json)
    (h : decodeClaimV2Body data = Except.ok j) : decodeClaimV2 data = j := by
  unfold decodeClaimV2
  rw [h]

theorem decodeClaimV1Body_ok_shape (data : List Nat) (cd : ClaimData)
    (hbody : decodeClaimV1Body data = Except.ok (some cd)) :
    cd.region = "" ∧ cd.consumptionEntityID = "" ∧ cd.proofID = "" := by
  unfold decodeClaimV1Body at hbody
  split at hbody
  · simp at hbody
  · split at hbody
    · simp only [Except.ok.injEq, Option.some.injEq] at hbody
      subst hbody
      simp
    · simp at hbody

theorem decodeClaimV1_fields (data : List Nat) (cd : ClaimData)
    (h : decodeClaimV1 data = some cd) :
    cd.region = "" ∧ cd.consumptionEntityID = "" ∧ cd.proofID = "" := by
  rcases hb : decodeClaimV1Body data with e | v
  · rw [decodeClaimV1_catch data e hb] at h
    exact absurd h (by simp)
  · rw [decodeClaimV1_ok data v hb] at h
    subst h
    exact decodeClaimV1Body_ok_shape data cd hb

theorem decodeClaimV3Body_ok_shape (data : List Nat) (cd : ClaimData)
    (hbody : decodeClaimV3Body data = Except.ok (some cd)) : cd.location = "" := by
  unfold decodeClaimV3Body at hbody
  split at hbody
  · simp at hbody
  · split at hbody
    · simp only [Except.ok.injEq, Option.some.injEq] at hbody
      subst hbody
      simp
    · simp at hbody

theorem decodeClaimV3_fields (data : List Nat) (cd : ClaimData)
    (h : decodeClaimV3 data = some cd) : cd.location = "" := by
  rcases hb : decodeClaimV3Body data with e | v
  · rw [decodeClaimV3_catch data e hb] at h
    exact absurd h (by simp)
  · rw [decodeClaimV3_ok data v hb] at h
    subst h
    exact decodeClaimV3Body_ok_shape data cd hb

theorem decodeClaimV2_amended_cases (data : List Nat) :
    (abiDecodeStrings 1 data = none → decodeClaimV2 data = Json.null) ∧
    (∀ t, abiDecodeStrings 1 data = some [t] → jsonParse t = none →
      decodeClaimV2 data = Json.null) ∧
    (∀ t j, abiDecodeStrings 1 data = some [t] → jsonParse t = some j →
      decodeClaimV2 data = j) := by
  refine ⟨?_, ?_, ?_⟩
  · intro habi
    unfold decodeClaimV2 decodeClaimV2Body
    rw [habi]
  · intro t habi hp
    unfold decodeClaimV2 decodeClaimV2Body
    rw [habi]
    simp [hp]
  · intro t j habi hp
    unfold decodeClaimV2 decodeClaimV2Body
    rw [habi]
    simp [hp]

/-- A second redemption-set event, with a later block number, for the
ordering scenarios. -/
def rA2 : RedemptionSetEvent :=
  { batchId := "A", redemptionStatement := "rsA", storagePointer := "spA",
    blockNumber := 2, transactionHash := "txA" }

/-- A batch-minted event whose batch id matches no redemption event of the
scenarios. -/
def bmB2 : CertificateBatchMintedEvent :=
  { batchId := "B2", certificateIds := [9] }

/-! ### Claim theorems -/

theorem filledScan_eq_nil (se : AgreementSignedEvent) (fes : List AgreementFilledEvent) :
    filledScan se fes = [] := by
  induction fes with
  | nil => rfl
  | cons fe rest ih => simp [filledScan, ih]

theorem signedScan_eq_nil (ses : List AgreementSignedEvent) (fes : List AgreementFilledEvent)
    (dataOf : String → AgreementDataRec) : signedScan ses fes dataOf = [] := by
  induction ses with
  | nil => rfl
  | cons se rest ih =>
    by_cases h : (dataOf se.agreementAddress).valid = false
    · simp [signedScan, h, ih]
    · simp [signedScan, h, ih, filledScan_eq_nil]

/-- A signed agreement over amount 10. -/
def sigA : AgreementSignedEvent :=
  { agreementAddress := "0xA", buyer := "b", seller := "s", amount := 10, blockNumber := 1 }

/-- A filled agreement at the same address over the different amount 20. -/
def fillA : AgreementFilledEvent :=
  { agreementAddress := "0xA", certificateId := 7, amount := 20 }

/-- Agreement metadata marking every address valid. -/
def dataOfA : String → AgreementDataRec :=
  fun _ => { buyer := "b", seller := "s", amount := 10, metadata := "", valid := true }

/-- C1: the claim states that when a signed and a filled agreement share an
address but their amounts differ, the amount-mismatch diagnostic is emitted
(and for some such pair the branch is actually taken).  The code can never
take that branch: source line 314 destructures `agreementSignedEvent.args`
instead of `agreementFilledEvent.args`, so the compared "filled" amount is
the signed amount itself and the inequality test always fails.  This
theorem proves the diagnostic list is empty for every input — in
particular for the concrete pair (`sigA`, `fillA`) with equal addresses and
amounts 10 versus 20. -/
theorem C1_mismatch_diagnostic_unreachable :
    (∀ (ses : List AgreementSignedEvent) (fes : List AgreementFilledEvent)
      (dataOf : String → AgreementDataRec), signedFilledDiagnostics ses fes dataOf = []) ∧
    signedFilledDiagnostics [sigA] [fillA] dataOfA = [] := by
  constructor
  · intro ses fes dataOf
    exact signedScan_eq_nil _ fes dataOf
  · exact signedScan_eq_nil _ [fillA] dataOfA

/-- C2: the claim-payload decoder tries V3, then V1, then V2, with early
exit on first success: a successful V3 decode is used as-is; when V3
mismatches, a successful V1 decode is used (and its `region`,
`consumptionEntityID` and `proofID` fields are the empty string); when both
V3 and V1 mismatch, the chain's value is V2's result. -/
theorem C2_fallback_order_v3_v1_v2 :
    ∀ data : List Nat,
      (∀ cd3, decodeClaimV3 data = some cd3 → decodeClaimChain data = jsonOfClaimData cd3) ∧
      (decodeClaimV3 data = none → ∀ cd, decodeClaimV1 data = some cd →
        decodeClaimChain data = jsonOfClaimData cd ∧ cd.region = "" ∧
        cd.consumptionEntityID = "" ∧ cd.proofID = "") ∧
      (decodeClaimV3 data = none → decodeClaimV1 data = none →
        decodeClaimChain data = decodeClaimV2 data) := by
  intro data
  refine ⟨fun cd3 h => decodeClaimChain_of_v3 data cd3 h, fun h3 cd h1 => ?_,
    fun h3 h1 => decodeClaimChain_of_v3_v1_fail data h3 h1⟩
  obtain ⟨hr, hc, hp⟩ := decodeClaimV1_fields data cd h1
  exact ⟨decodeClaimChain_of_v1 data cd h3 h1, hr, hc, hp⟩

set_option maxRecDepth 40000 in
/-- Witness for C2: the blob `blobV1` (ABI encoding of six "A" strings)
structurally satisfies V1 but neither V3 nor V2, and the chain returns
exactly the V1 decode with `region`, `consumptionEntityID`, `proofID`
empty. -/
theorem C2_fallback_order_v3_v1_v2_witness :
    decodeClaimV3 blobV1 = none ∧ decodeClaimV2 blobV1 = Json.null ∧
    decodeClaimChain blobV1 = jsonOfClaimData claimDataV1A ∧ claimDataV1A.region = "" ∧
    claimDataV1A.consumptionEntityID = "" ∧ claimDataV1A.proofID = "" := by
  have h := (C2_fallback_order_v3_v1_v2 blobV1).2.1 (by decide) claimDataV1A (by decide)
  exact ⟨by decide, by rfl, h.1, h.2.1, h.2.2.1, h.2.2.2⟩

set_option maxRecDepth 40000 in
/-- C3 counterexample: the claim says a successful V2 decode is always a
structured record, never an arbitrary JSON value such as a number.  On the
blob encoding the single text field "42", the V2 body succeeds (no error is
thrown at either stage) and the decoder returns the JSON number 42, which
is not an object; the chain hands exactly that value on. -/
theorem C3_cex_v2_success_not_record :
    decodeClaimV2Body blobNum42 = Except.ok (Json.num "42") ∧
    decodeClaimV2 blobNum42 = Json.num "42" ∧
    jsonIsObj (decodeClaimV2 blobNum42) = false ∧
    decodeClaimChain blobNum42 = Json.num "42" := by
  refine ⟨by rfl, by rfl, by rfl, ?_⟩
  rw [decodeClaimChain_of_v3_v1_fail blobNum42 (by decide) (by decide)]
  rfl

/-- C3 (amended): schema V2 decoding succeeds exactly when the blob
ABI-decodes as a single text field whose content parses as JSON; on
success it returns the parsed JSON value as-is — not necessarily a
structured record (it may be a number, a string, a boolean or an array),
and a parsed JSON `null` coincides with the failure marker.  Any parse
error at the outer ABI stage or the inner JSON stage is a decode failure
for schema V2. -/
theorem C3_v2_decode_amended :
    ∀ data : List Nat,
      (abiDecodeStrings 1 data = none → decodeClaimV2 data = Json.null) ∧
      (∀ t, abiDecodeStrings 1 data = some [t] → jsonParse t = none →
        decodeClaimV2 data = Json.null) ∧
      (∀ t j, abiDecodeStrings 1 data = some [t] → jsonParse t = some j →
        decodeClaimV2 data = j) :=
  fun data => decodeClaimV2_amended_cases data

set_option maxRecDepth 40000 in
/-- Witness for the amended C3: on the "42" blob the outer stage yields the
text "42", the inner stage parses it as the JSON number 42, and V2 returns
that value. -/
theorem C3_v2_decode_amended_witness :
    decodeClaimV2 blobNum42 = Json.num "42" :=
  (C3_v2_decode_amended blobNum42).2.2 "42" (Json.num "42") (by rfl) (by rfl)

/-- C5: claim decoding never raises to the caller: each schema attempt is
the catch wrapper of its body, so a thrown error (structural mismatch,
malformed encoding, failed JSON parse) becomes that schema's mismatch
marker (`none`, or `null` for V2) and the chain advances to the next
candidate; a returned value is passed through; and the chain's overall
result is always either a structured record's JSON, or V2's value, or the
`null` marker. -/
theorem C5_schema_attempts_isolated :
    ∀ data : List Nat,
      (∀ e, decodeClaimV3Body data = Except.error e → decodeClaimV3 data = none) ∧
      (∀ v, decodeClaimV3Body data = Except.ok v → decodeClaimV3 data = v) ∧
      (∀ e, decodeClaimV1Body data = Except.error e → decodeClaimV1 data = none) ∧
      (∀ v, decodeClaimV1Body data = Except.ok v → decodeClaimV1 data = v) ∧
      (∀ e, decodeClaimV2Body data = Except.error e → decodeClaimV2 data = Json.null) ∧
      (∀ j, decodeClaimV2Body data = Except.ok j → decodeClaimV2 data = j) ∧
      (decodeClaimV3 data = none → decodeClaimV1 data = none →
        decodeClaimChain data = decodeClaimV2 data) ∧
      ((∃ cd, decodeClaimChain data = jsonOfClaimData cd) ∨
        decodeClaimChain data = decodeClaimV2 data) := by
  intro data
  refine ⟨fun e h => decodeClaimV3_catch data e h, fun v h => decodeClaimV3_ok data v h,
    fun e h => decodeClaimV1_catch data e h, fun v h => decodeClaimV1_ok data v h,
    fun e h => decodeClaimV2_catch data e h, fun j h => decodeClaimV2_ok data j h,
    fun h3 h1 => decodeClaimChain_of_v3_v1_fail data h3 h1, ?_⟩
  rcases h3 : decodeClaimV3 data with _ | cd3
  · rcases h1 : decodeClaimV1 data with _ | cd1
    · exact Or.inr (decodeClaimChain_of_v3_v1_fail data h3 h1)
    · exact Or.inl ⟨cd1, decodeClaimChain_of_v1 data cd1 h3 h1⟩
  · exact Or.inl ⟨cd3, decodeClaimChain_of_v3 data cd3 h3⟩

/-- Witness for C5: on the empty blob every schema body throws at the ABI
stage, every attempt returns its mismatch marker, and the chain falls all
the way through to V2's marker. -/
theorem C5_schema_attempts_isolated_witness :
    decodeClaimV3 [] = none ∧ decodeClaimV1 [] = none ∧ decodeClaimV2 [] = Json.null ∧
    decodeClaimChain [] = decodeClaimV2 [] := by
  refine ⟨(C5_schema_attempts_isolated []).1 () (by rfl), ?_, ?_, ?_⟩
  · exact (C5_schema_attempts_isolated []).2.2.1 () (by rfl)
  · exact (C5_schema_attempts_isolated []).2.2.2.2.1 () (by rfl)
  · exact (C5_schema_attempts_isolated []).2.2.2.2.2.2.1
      ((C5_schema_attempts_isolated []).1 () (by rfl))
      ((C5_schema_attempts_isolated []).2.2.1 () (by rfl))

/-- C4: when all three schema attempts fail, the chain's value is the
JavaScript `null` marker, whose serialization "null" differs from the
serialization (and the value) of a successfully decoded all-empty record;
every emitted Claim row carries the serialized chain result of its source
event's blob in `claimDataDecoded`; and on the concrete scenario with an
undecodable blob the Claim row is still emitted, with "null" in its decoded
field, while the run produces its other rows. -/
theorem C4_decode_exhausted_marker :
    (∀ data, decodeClaimV3 data = none → decodeClaimV1 data = none →
      decodeClaimV2 data = Json.null →
      decodeClaimChain data = Json.null ∧ jsonStringify (decodeClaimChain data) = "null") ∧
    Json.null ≠ jsonOfClaimData emptyClaimData ∧
    jsonStringify Json.null ≠ jsonStringify (jsonOfClaimData emptyClaimData) ∧
    (∀ rs bms mints ces cl, cl ∈ (parseEwcData rs bms mints ces).2.2 →
      ∃ ce ∈ ces, cl.claimDataDecoded = jsonStringify (decodeClaimChain ce.claimData)) ∧
    (parseEwcData [rB1] [bmB1] [mint7] [claim7]).2.2 =
      [{ id := "0", claimIssuer := "ci", claimSubject := "cs", topic := "1",
         certificateId := "7", value := "400", claimData := "0x00",
         claimDataDecoded := "null", transactionHash := "tx2" }] := by
  refine ⟨?_, ?_, ?_, ?_, ?_⟩
  · intro data h3 h1 h2
    have hc : decodeClaimChain data = Json.null := by
      rw [decodeClaimChain_of_v3_v1_fail data h3 h1, h2]
    exact ⟨hc, by rw [hc]; rfl⟩
  · simp [jsonOfClaimData]
  · decide
  · intro rs bms mints ces cl hcl
    have hmap : ((parseEwcData rs bms mints ces).2.2).map claimCore =
        claimsSpecList (sortByBlockNumber rs) bms mints ces := by
      rw [parseEwcData_eq]
      exact redNew_claims_map_core (sortByBlockNumber rs) bms mints ces 0 0 0
    have hmem : claimCore cl ∈ claimsSpecList (sortByBlockNumber rs) bms mints ces := by
      rw [← hmap]
      exact List.mem_map_of_mem claimCore hcl
    obtain ⟨r, hr, bm, hbm, hkey, cid, hcid, m, hm, hmid, ce, hce, hceid, hx⟩ :=
      claimsSpecList_mem_dest (sortByBlockNumber rs) bms mints ces (claimCore cl) hmem
    refine ⟨ce, hce, ?_⟩
    have : (claimCore cl).claimDataDecoded = (claimOfEvent ce).claimDataDecoded := by rw [hx]
    simpa [claimCore, claimOfEvent] using this
  · decide

set_option maxRecDepth 40000 in
/-- Witness for C4: the one-byte blob `[0]` fails all three schema attempts
and the chain produces the `null` marker serialized as "null". -/
theorem C4_decode_exhausted_marker_witness :
    decodeClaimChain [0] = Json.null ∧ jsonStringify (decodeClaimChain [0]) = "null" :=
  C4_decode_exhausted_marker.1 [0] (by rfl) (by rfl) (by rfl)

set_option maxRecDepth 40000 in
/-- C6: the correlation applies no deduplication at any stage: the
certificate table's content is exactly the cross product (one row per
(redemption event, matching batch-minted event, listed certificate id,
matching mint event) combination) and the claim table's content one row per
such combination extended by a matching claim event; in the concrete
scenario with two identical mint events reporting certificate id 7, two
Certificate rows and two Claim rows are emitted, not one. -/
theorem C6_cross_product_no_dedup :
    (∀ rs bms mints ces,
      ((parseEwcData rs bms mints ces).2.1).map certCore =
        certsSpecList (sortByBlockNumber rs) bms mints ∧
      ((parseEwcData rs bms mints ces).2.2).map claimCore =
        claimsSpecList (sortByBlockNumber rs) bms mints ces) ∧
    ((parseEwcData [rB1] [bmB1] [mint7, mint7] [claim7]).2.1).map certCore =
      [certOfMatch 7 mint7, certOfMatch 7 mint7] ∧
    (parseEwcData [rB1] [bmB1] [mint7, mint7] [claim7]).2.2.length = 2 := by
  refine ⟨?_, by decide, by decide⟩
  intro rs bms mints ces
  constructor
  · rw [parseEwcData_eq]
    exact redNew_certs_map_core (sortByBlockNumber rs) bms mints ces 0 0 0
  · rw [parseEwcData_eq]
    exact redNew_claims_map_core (sortByBlockNumber rs) bms mints ces 0 0 0

/-- C7: ids are matched as big integers (the event ids are `Nat` here, as
ethers compares `BigNumber`s with `.eq`), and the back-references are
consistent: every id listed in a Certificate row's `claimIds` is the
decimal index of a Claim row whose `certificateId` equals that
certificate's `tokenId` — both rendered from the same integer id, so equal
regardless of any leading-zero padding or radix of the original event
encodings. -/
theorem C7_claim_certificate_reference_consistent :
    ∀ rs bms mints ces, ∀ c ∈ (parseEwcData rs bms mints ces).2.1, ∀ s ∈ c.claimIds,
      ∃ (j : Nat) (cl : Claim), s = toString j ∧
        ((parseEwcData rs bms mints ces).2.2)[j]? = some cl ∧
        cl.certificateId = c.tokenId := by
  intro rs bms mints ces c hc s hs
  have hcons := redNew_idxConsistent (sortByBlockNumber rs) bms mints ces 0 0 0
  rw [parseEwcData_eq] at hc
  obtain ⟨j, hj1, hj2, hj3, cl, hcl, hcid⟩ := hcons c hc s hs
  refine ⟨j, cl, hj1, ?_, hcid⟩
  rw [parseEwcData_eq]
  simpa using hcl

/-- The Certificate row of the single-match scenario. -/
def cert7Row : Certificate :=
  { id := "0", tokenId := "7", value := "1000", operator := "op", fromAddr := "0x0",
    toAddr := "0xA", claimIds := ["0"], transactionHash := "tx1" }

set_option maxRecDepth 40000 in
/-- Witness for C7, on the single-batch single-mint single-claim
scenario. -/
theorem C7_claim_certificate_reference_consistent_witness :
    ∃ (j : Nat) (cl : Claim), "0" = toString j ∧
      ((parseEwcData [rB1] [bmB1] [mint7] [claim7]).2.2)[j]? = some cl ∧
      cl.certificateId = cert7Row.tokenId :=
  C7_claim_certificate_reference_consistent [rB1] [bmB1] [mint7] [claim7] cert7Row
    (by decide) "0" (by decide)

/-- C8: the join direction is outer-to-inner: a batch-minted event whose
batch key matches no redemption event contributes nothing (removing it
leaves the output unchanged), and every Certificate / Claim row's content
is generated by matching input events under exact key equality (batch id
string equality, certificate id integer equality). -/
theorem C8_outer_to_inner_join :
    (∀ rs bms1 bms2 (e : CertificateBatchMintedEvent) mints ces,
      (∀ r ∈ rs, ¬ r.batchId = e.batchId) →
      parseEwcData rs (bms1 ++ e :: bms2) mints ces =
        parseEwcData rs (bms1 ++ bms2) mints ces) ∧
    (∀ rs bms mints ces c, c ∈ (parseEwcData rs bms mints ces).2.1 →
      ∃ r ∈ rs, ∃ bm ∈ bms, r.batchId = bm.batchId ∧ ∃ cid ∈ bm.certificateIds,
        ∃ m ∈ mints, m.id = cid ∧ certCore c = certOfMatch cid m) ∧
    (∀ rs bms mints ces cl, cl ∈ (parseEwcData rs bms mints ces).2.2 →
      ∃ r ∈ rs, ∃ bm ∈ bms, r.batchId = bm.batchId ∧ ∃ cid ∈ bm.certificateIds,
        ∃ m ∈ mints, m.id = cid ∧ ∃ ce ∈ ces, ce.id = cid ∧ claimCore cl = claimOfEvent ce) := by
  refine ⟨?_, ?_, ?_⟩
  · intro rs bms1 bms2 e mints ces h
    rw [parseEwcData_eq, parseEwcData_eq]
    exact redNew_erase_unmatched (sortByBlockNumber rs) bms1 bms2 e mints ces 0 0 0
      (fun r hr => h r (((sortByBlockNumber_perm rs).mem_iff).mp hr))
  · intro rs bms mints ces c hc
    have hmap : ((parseEwcData rs bms mints ces).2.1).map certCore =
        certsSpecList (sortByBlockNumber rs) bms mints := by
      rw [parseEwcData_eq]
      exact redNew_certs_map_core (sortByBlockNumber rs) bms mints ces 0 0 0
    have hmem : certCore c ∈ certsSpecList (sortByBlockNumber rs) bms mints := by
      rw [← hmap]
      exact List.mem_map_of_mem certCore hc
    obtain ⟨r, hr, bm, hbm, hkey, cid, hcid, m, hm, hmid, hx⟩ :=
      certsSpecList_mem_dest (sortByBlockNumber rs) bms mints (certCore c) hmem
    exact ⟨r, ((sortByBlockNumber_perm rs).mem_iff).mp hr, bm, hbm, hkey, cid, hcid,
      m, hm, hmid, hx⟩
  · intro rs bms mints ces cl hcl
    have hmap : ((parseEwcData rs bms mints ces).2.2).map claimCore =
        claimsSpecList (sortByBlockNumber rs) bms mints ces := by
      rw [parseEwcData_eq]
      exact redNew_claims_map_core (sortByBlockNumber rs) bms mints ces 0 0 0
    have hmem : claimCore cl ∈ claimsSpecList (sortByBlockNumber rs) bms mints ces := by
      rw [← hmap]
      exact List.mem_map_of_mem claimCore hcl
    obtain ⟨r, hr, bm, hbm, hkey, cid, hcid, m, hm, hmid, ce, hce, hceid, hx⟩ :=
      claimsSpecList_mem_dest (sortByBlockNumber rs) bms mints ces (claimCore cl) hmem
    exact ⟨r, ((sortByBlockNumber_perm rs).mem_iff).mp hr, bm, hbm, hkey, cid, hcid,
      m, hm, hmid, ce, hce, hceid, hx⟩

set_option maxRecDepth 40000 in
/-- Witness for C8: removing the batch-minted event for batch "B2", which
no redemption event references, leaves the output unchanged. -/
theorem C8_outer_to_inner_join_witness :
    parseEwcData [rB1] ([] ++ bmB2 :: []) [mint7] [claim7] =
      parseEwcData [rB1] ([] ++ []) [mint7] [claim7] :=
  C8_outer_to_inner_join.1 [rB1] [] [] bmB2 [mint7] [claim7] (by decide)

/-- C9: no input row causes a hard failure: the engine emits exactly one
Batch row per redemption event, in ascending block-number order (the
processing order), with the row's content copied from its event; a
redemption event whose batch key matches no batch-minted event still gets
its Batch row, with an empty `certificateIds` list, and its pass appends no
Certificate (and no Claim) rows at all. -/
theorem C9_unmatched_redemption_and_ordering :
    ∀ rs bms mints ces,
      (parseEwcData rs bms mints ces).1.length = rs.length ∧
      (sortByBlockNumber rs).Perm rs ∧
      List.Sorted blockLe (sortByBlockNumber rs) ∧
      ((parseEwcData rs bms mints ces).1).map
          (fun b => (b.batchId, b.redemptionStatement, b.storagePointer, b.transactionHash)) =
        (sortByBlockNumber rs).map
          (fun r => (r.batchId, r.redemptionStatement, r.storagePointer, r.transactionHash)) ∧
      (∀ (i : Nat) (r : RedemptionSetEvent), (sortByBlockNumber rs)[i]? = some r →
        (∀ bm ∈ bms, ¬ r.batchId = bm.batchId) →
        ∃ b : Batch, (parseEwcData rs bms mints ces).1[i]? = some b ∧ b.batchId = r.batchId ∧
          b.certificateIds = []) ∧
      (∀ r : RedemptionSetEvent, (∀ bm ∈ bms, ¬ r.batchId = bm.batchId) → ∀ nc nk,
        batchNew r.batchId bms mints ces nc nk = ([], [])) := by
  intro rs bms mints ces
  refine ⟨?_, sortByBlockNumber_perm rs, sortByBlockNumber_sorted rs, ?_, ?_, ?_⟩
  · rw [parseEwcData_eq, redNew_batches_length]
    exact (sortByBlockNumber_perm rs).length_eq
  · rw [parseEwcData_eq]
    exact redNew_batches_map_content (sortByBlockNumber rs) bms mints ces 0 0 0
  · intro i r hi hr
    rw [parseEwcData_eq]
    exact redNew_batch_at (sortByBlockNumber rs) bms mints ces 0 0 0 i r hi hr
  · intro r hr nc nk
    exact batchNew_eq_nil bms r.batchId mints ces nc nk hr

set_option maxRecDepth 40000 in
/-- Witness for C9: with redemption events arriving out of block order and
no batch-minted events, the first processed event is the lower-block one
and its Batch row has an empty `certificateIds` list. -/
theorem C9_unmatched_redemption_and_ordering_witness :
    ∃ b : Batch, (parseEwcData [rA2, rB1] [] [] []).1[0]? = some b ∧ b.batchId = rB1.batchId ∧
      b.certificateIds = [] :=
  (C9_unmatched_redemption_and_ordering [rA2, rB1] [] [] []).2.2.2.2.1 0 rB1
    (by decide) (by decide)

/-! ### Per-pass attribution of back-reference lists -/

/-- Unfolding of `mintNew` at a cons cell, with the let bindings expanded. -/
theorem mintNew_cons (cid : Nat) (m : MintEvent) (rest : List MintEvent)
    (ces : List ClaimSingleEvent) (nc nk : Nat) :
    mintNew cid (m :: rest) ces nc nk =
      if m.id = cid then
        (mkCertRow nc cid m
            ((List.range' nk (newClaims cid ces nk).length).map (fun i => toString i)) ::
          (mintNew cid rest ces (nc + 1) (nk + (newClaims cid ces nk).length)).1,
         newClaims cid ces nk ++
          (mintNew cid rest ces (nc + 1) (nk + (newClaims cid ces nk).length)).2)
      else mintNew cid rest ces nc nk := rfl

/-- Unfolding of `cidNew` at a cons cell, with the let bindings expanded. -/
theorem cidNew_cons (cid : Nat) (rest : List Nat) (mints : List MintEvent)
    (ces : List ClaimSingleEvent) (nc nk : Nat) :
    cidNew (cid :: rest) mints ces nc nk =
      ((mintNew cid mints ces nc nk).1 ++
        (cidNew rest mints ces (nc + (mintNew cid mints ces nc nk).1.length)
          (nk + (mintNew cid mints ces nc nk).2.length)).1,
       (mintNew cid mints ces nc nk).2 ++
        (cidNew rest mints ces (nc + (mintNew cid mints ces nc nk).1.length)
          (nk + (mintNew cid mints ces nc nk).2.length)).2) := rfl

/-- Every certificate row emitted by one mint pass carries, in `claimIds`,
exactly the index range of the claim block of its own match: the block
sits at some offset `nk + e` in the pass's claim output and equals
`newClaims cid ces (nk + e)`, the rows built from the claim events that
match the certificate id. -/
theorem mintNew_cert_match_at (mints : List MintEvent) (cid : Nat)
    (ces : List ClaimSingleEvent) (nc nk : Nat) :
    ∀ (j : Nat) (c : Certificate), (mintNew cid mints ces nc nk).1[j]? = some c →
      ∃ e, c.tokenId = toString cid ∧
        c.claimIds = (List.range' (nk + e) (newClaims cid ces (nk + e)).length).map
          (fun x => toString x) ∧
        ∀ (p : Nat) (cl : Claim), (newClaims cid ces (nk + e))[p]? = some cl →
          (mintNew cid mints ces nc nk).2[e + p]? = some cl := by
  induction mints generalizing nc nk with
  | nil => intro j c hc; simp [mintNew] at hc
  | cons m rest ih =>
    intro j c hc
    by_cases h : m.id = cid
    · rw [mintNew_cons, if_pos h] at hc ⊢
      match j with
      | 0 =>
        have hceq : c = mkCertRow nc cid m
            ((List.range' nk (newClaims cid ces nk).length).map (fun i => toString i)) := by
          have := hc
          simp at this
          exact this.symm
        subst hceq
        refine ⟨0, by simp [mkCertRow], by simp [mkCertRow], ?_⟩
        intro p cl hcl
        simp only [Nat.add_zero] at hcl
        have hb : p < (newClaims cid ces nk).length := (List.getElem?_eq_some_iff.mp hcl).1
        simp only [Nat.zero_add]
        rw [List.getElem?_append]
        rw [if_pos hb]
        exact hcl
      | j + 1 =>
        have hc' : (mintNew cid rest ces (nc + 1) (nk + (newClaims cid ces nk).length)).1[j]? =
            some c := by simpa using hc
        obtain ⟨e, h1, h2, h3⟩ := ih (nc + 1) (nk + (newClaims cid ces nk).length) j c hc'
        refine ⟨(newClaims cid ces nk).length + e, h1, ?_, ?_⟩
        · rw [← Nat.add_assoc]
          exact h2
        · intro p cl hcl
          rw [← Nat.add_assoc] at hcl
          have h := h3 p cl hcl
          have hge : (newClaims cid ces nk).length ≤ (newClaims cid ces nk).length + e + p := by
            omega
          have e4 : (newClaims cid ces nk).length + e + p - (newClaims cid ces nk).length =
              e + p := by omega
          rw [List.getElem?_append_right hge, e4]
          exact h
    · rw [mintNew_cons, if_neg h] at hc ⊢
      exact ih nc nk j c hc


/-- Lift of `mintNew_cert_match_at` through the certificate-id loop. -/
theorem cidNew_cert_match_at (cids : List Nat) (mints : List MintEvent)
    (ces : List ClaimSingleEvent) (nc nk : Nat) :
    ∀ (j : Nat) (c : Certificate), (cidNew cids mints ces nc nk).1[j]? = some c →
      ∃ cid e, c.tokenId = toString cid ∧
        c.claimIds = (List.range' (nk + e) (newClaims cid ces (nk + e)).length).map
          (fun x => toString x) ∧
        ∀ (p : Nat) (cl : Claim), (newClaims cid ces (nk + e))[p]? = some cl →
          (cidNew cids mints ces nc nk).2[e + p]? = some cl := by
  induction cids generalizing nc nk with
  | nil => intro j c hc; simp [cidNew] at hc
  | cons cid rest ih =>
    intro j c hc
    rw [cidNew_cons] at hc ⊢
    by_cases hj : j < (mintNew cid mints ces nc nk).1.length
    · have hp : (mintNew cid mints ces nc nk).1[j]? = some c := by
        rw [List.getElem?_append] at hc
        rwa [if_pos hj] at hc
      obtain ⟨e, h1, h2, h3⟩ := mintNew_cert_match_at mints cid ces nc nk j c hp
      refine ⟨cid, e, h1, h2, ?_⟩
      intro p cl hcl
      have h := h3 p cl hcl
      have hb : e + p < (mintNew cid mints ces nc nk).2.length :=
        (List.getElem?_eq_some_iff.mp h).1
      rw [List.getElem?_append]
      rw [if_pos hb]
      exact h
    · have hq : (cidNew rest mints ces (nc + (mintNew cid mints ces nc nk).1.length)
          (nk + (mintNew cid mints ces nc nk).2.length)).1[j -
            (mintNew cid mints ces nc nk).1.length]? = some c := by
        rw [List.getElem?_append_right (by omega)] at hc
        exact hc
      obtain ⟨cid', e, h1, h2, h3⟩ := ih (nc + (mintNew cid mints ces nc nk).1.length)
        (nk + (mintNew cid mints ces nc nk).2.length)
        (j - (mintNew cid mints ces nc nk).1.length) c hq
      refine ⟨cid', (mintNew cid mints ces nc nk).2.length + e, h1, ?_, ?_⟩
      · rw [← Nat.add_assoc]
        exact h2
      · intro p cl hcl
        rw [← Nat.add_assoc] at hcl
        have h := h3 p cl hcl
        have hge : (mintNew cid mints ces nc nk).2.length ≤
            (mintNew cid mints ces nc nk).2.length + e + p := by omega
        have e4 : (mintNew cid mints ces nc nk).2.length + e + p -
            (mintNew cid mints ces nc nk).2.length = e + p := by omega
        rw [List.getElem?_append_right hge, e4]
        exact h

/-- Lift of the per-match attribution through the batch-minted loop. -/
theorem batchNew_cert_match_at (bms : List CertificateBatchMintedEvent) (bid : String)
    (mints : List MintEvent) (ces : List ClaimSingleEvent) (nc nk : Nat) :
    ∀ (j : Nat) (c : Certificate), (batchNew bid bms mints ces nc nk).1[j]? = some c →
      ∃ cid e, c.tokenId = toString cid ∧
        c.claimIds = (List.range' (nk + e) (newClaims cid ces (nk + e)).length).map
          (fun x => toString x) ∧
        ∀ (p : Nat) (cl : Claim), (newClaims cid ces (nk + e))[p]? = some cl →
          (batchNew bid bms mints ces nc nk).2[e + p]? = some cl := by
  induction bms generalizing nc nk with
  | nil => intro j c hc; simp [batchNew] at hc
  | cons bm rest ih =>
    intro j c hc
    rw [batchNew_cons] at hc ⊢
    by_cases h : bid = bm.batchId
    · rw [if_pos h] at hc ⊢
      by_cases hj : j < (cidNew bm.certificateIds mints ces nc nk).1.length
      · have hp : (cidNew bm.certificateIds mints ces nc nk).1[j]? = some c := by
          rw [List.getElem?_append] at hc
          rwa [if_pos hj] at hc
        obtain ⟨cid, e, h1, h2, h3⟩ :=
          cidNew_cert_match_at bm.certificateIds mints ces nc nk j c hp
        refine ⟨cid, e, h1, h2, ?_⟩
        intro p cl hcl
        have hcl2 := h3 p cl hcl
        have hb : e + p < (cidNew bm.certificateIds mints ces nc nk).2.length :=
          (List.getElem?_eq_some_iff.mp hcl2).1
        rw [List.getElem?_append]
        rw [if_pos hb]
        exact hcl2
      · have hq : (batchNew bid rest mints ces
            (nc + (cidNew bm.certificateIds mints ces nc nk).1.length)
            (nk + (cidNew bm.certificateIds mints ces nc nk).2.length)).1[j -
              (cidNew bm.certificateIds mints ces nc nk).1.length]? = some c := by
          rw [List.getElem?_append_right (by omega)] at hc
          exact hc
        obtain ⟨cid', e, h1, h2, h3⟩ := ih (nc + (cidNew bm.certificateIds mints ces nc nk).1.length)
          (nk + (cidNew bm.certificateIds mints ces nc nk).2.length)
          (j - (cidNew bm.certificateIds mints ces nc nk).1.length) c hq
        refine ⟨cid', (cidNew bm.certificateIds mints ces nc nk).2.length + e, h1, ?_, ?_⟩
        · rw [← Nat.add_assoc]
          exact h2
        · intro p cl hcl
          rw [← Nat.add_assoc] at hcl
          have hcl2 := h3 p cl hcl
          have hge : (cidNew bm.certificateIds mints ces nc nk).2.length ≤
              (cidNew bm.certificateIds mints ces nc nk).2.length + e + p := by omega
          have e4 : (cidNew bm.certificateIds mints ces nc nk).2.length + e + p -
              (cidNew bm.certificateIds mints ces nc nk).2.length = e + p := by omega
          rw [List.getElem?_append_right hge, e4]
          exact hcl2
    · rw [if_neg h] at hc ⊢
      exact ih nc nk j c hc

/-- Lift of the per-match attribution through the outer redemption loop:
every certificate row's `claimIds` is the index range of the claim block of
its own (certificate id, mint event) match. -/
theorem redNew_cert_match_at (rs : List RedemptionSetEvent)
    (bms : List CertificateBatchMintedEvent) (mints : List MintEvent)
    (ces : List ClaimSingleEvent) (nb nc nk : Nat) :
    ∀ (j : Nat) (c : Certificate), (redNew rs bms mints ces nb nc nk).2.1[j]? = some c →
      ∃ cid e, c.tokenId = toString cid ∧
        c.claimIds = (List.range' (nk + e) (newClaims cid ces (nk + e)).length).map
          (fun x => toString x) ∧
        ∀ (p : Nat) (cl : Claim), (newClaims cid ces (nk + e))[p]? = some cl →
          (redNew rs bms mints ces nb nc nk).2.2[e + p]? = some cl := by
  induction rs generalizing nb nc nk with
  | nil => intro j c hc; simp [redNew] at hc
  | cons r rest ih =>
    intro j c hc
    rw [redNew_cons] at hc ⊢
    by_cases hj : j < (batchNew r.batchId bms mints ces nc nk).1.length
    · have hp : (batchNew r.batchId bms mints ces nc nk).1[j]? = some c := by
        rw [List.getElem?_append] at hc
        rwa [if_pos hj] at hc
      obtain ⟨cid, e, h1, h2, h3⟩ :=
        batchNew_cert_match_at bms r.batchId mints ces nc nk j c hp
      refine ⟨cid, e, h1, h2, ?_⟩
      intro p cl hcl
      have hcl2 := h3 p cl hcl
      have hb : e + p < (batchNew r.batchId bms mints ces nc nk).2.length :=
        (List.getElem?_eq_some_iff.mp hcl2).1
      rw [List.getElem?_append]
      rw [if_pos hb]
      exact hcl2
    · have hq : (redNew rest bms mints ces (nb + 1)
          (nc + (batchNew r.batchId bms mints ces nc nk).1.length)
          (nk + (batchNew r.batchId bms mints ces nc nk).2.length)).2.1[j -
            (batchNew r.batchId bms mints ces nc nk).1.length]? = some c := by
        rw [List.getElem?_append_right (by omega)] at hc
        exact hc
      obtain ⟨cid', e, h1, h2, h3⟩ := ih (nb + 1)
        (nc + (batchNew r.batchId bms mints ces nc nk).1.length)
        (nk + (batchNew r.batchId bms mints ces nc nk).2.length)
        (j - (batchNew r.batchId bms mints ces nc nk).1.length) c hq
      refine ⟨cid', (batchNew r.batchId bms mints ces nc nk).2.length + e, h1, ?_, ?_⟩
      · rw [← Nat.add_assoc]
        exact h2
      · intro p cl hcl
        rw [← Nat.add_assoc] at hcl
        have hcl2 := h3 p cl hcl
        have hge : (batchNew r.batchId bms mints ces nc nk).2.length ≤
            (batchNew r.batchId bms mints ces nc nk).2.length + e + p := by omega
        have e4 : (batchNew r.batchId bms mints ces nc nk).2.length + e + p -
            (batchNew r.batchId bms mints ces nc nk).2.length = e + p := by omega
        rw [List.getElem?_append_right hge, e4]
        exact hcl2

/-- Per-batch attribution: the i-th emitted Batch row is exactly the row
built for the i-th processed redemption event, its `certificateIds` is the
index range of its own pass's certificate block, and the certificate table
holds that pass's rows at exactly those indices. -/
theorem redNew_batch_pass_at (rs : List RedemptionSetEvent)
    (bms : List CertificateBatchMintedEvent) (mints : List MintEvent)
    (ces : List ClaimSingleEvent) (nb nc nk : Nat) :
    ∀ (i : Nat) (r : RedemptionSetEvent), rs[i]? = some r →
      ∃ d e,
        (redNew rs bms mints ces nb nc nk).1[i]? = some (mkBatchRow (nb + i) r
          ((List.range' (nc + d)
            (batchNew r.batchId bms mints ces (nc + d) (nk + e)).1.length).map
              (fun x => toString x))) ∧
        ∀ (m : Nat) (cert : Certificate),
          (batchNew r.batchId bms mints ces (nc + d) (nk + e)).1[m]? = some cert →
          (redNew rs bms mints ces nb nc nk).2.1[d + m]? = some cert := by
  induction rs generalizing nb nc nk with
  | nil => intro i r hr; simp at hr
  | cons r0 rest ih =>
    intro i r hr
    match i with
    | 0 =>
      have hr0 : r0 = r := by simpa using hr
      subst hr0
      refine ⟨0, 0, ?_, ?_⟩
      · rw [redNew_cons]
        simp only [List.getElem?_cons_zero, Nat.add_zero]
      · intro m cert hm
        rw [redNew_cons]
        simp only [Nat.add_zero] at hm
        simp only [Nat.zero_add]
        have hb : m < (batchNew r0.batchId bms mints ces nc nk).1.length :=
          (List.getElem?_eq_some_iff.mp hm).1
        rw [List.getElem?_append]
        rw [if_pos hb]
        exact hm
    | i + 1 =>
      have hr' : rest[i]? = some r := by simpa using hr
      obtain ⟨d, e, h1, h2⟩ := ih (nb + 1)
        (nc + (batchNew r0.batchId bms mints ces nc nk).1.length)
        (nk + (batchNew r0.batchId bms mints ces nc nk).2.length) i r hr'
      refine ⟨(batchNew r0.batchId bms mints ces nc nk).1.length + d,
        (batchNew r0.batchId bms mints ces nc nk).2.length + e, ?_, ?_⟩
      · rw [redNew_cons]
        simp only [List.getElem?_cons_succ]
        rw [← Nat.add_assoc nc, ← Nat.add_assoc nk]
        have e1 : nb + (i + 1) = nb + 1 + i := by omega
        rw [e1]
        exact h1
      · intro m cert hm
        rw [redNew_cons]
        rw [← Nat.add_assoc nc, ← Nat.add_assoc nk] at hm
        have h := h2 m cert hm
        have hge : (batchNew r0.batchId bms mints ces nc nk).1.length ≤
            (batchNew r0.batchId bms mints ces nc nk).1.length + d + m := by omega
        have e4 : (batchNew r0.batchId bms mints ces nc nk).1.length + d + m -
            (batchNew r0.batchId bms mints ces nc nk).1.length = d + m := by omega
        rw [List.getElem?_append_right hge, e4]
        exact h


/-- C10: row identifiers are positional and back-references are
index-consistent: every Batch / Certificate / Claim row's `id` is the
decimal string of its zero-based index in its table; the concatenation of
the batches' `certificateIds` lists, in emission order, is exactly the list
of all certificate row indices, and likewise the certificates' `claimIds`
lists over the claim rows; moreover each batch's list is pinned to its own
pass — the i-th Batch row is exactly the row built for the i-th processed
redemption event, its `certificateIds` is the index range of its own pass's
certificate block (`batchNew` at the pass's offsets), and the certificate
table holds that pass's rows at exactly those indices — and each
certificate's list is pinned to its own match — its `claimIds` is the index
range of the claim block `newClaims cid ces nk` built from the claim events
matching its own certificate id, and the claim table holds exactly those
rows at those indices. -/
theorem C10_positional_ids_and_backrefs :
    ∀ rs bms mints ces,
      ((parseEwcData rs bms mints ces).2.1).map (fun c => c.id) =
        (List.range (parseEwcData rs bms mints ces).2.1.length).map (fun i => toString i) ∧
      ((parseEwcData rs bms mints ces).2.2).map (fun c => c.id) =
        (List.range (parseEwcData rs bms mints ces).2.2.length).map (fun i => toString i) ∧
      ((parseEwcData rs bms mints ces).1).map (fun b => b.id) =
        (List.range (parseEwcData rs bms mints ces).1.length).map (fun i => toString i) ∧
      ((parseEwcData rs bms mints ces).1).flatMap (fun b => b.certificateIds) =
        (List.range (parseEwcData rs bms mints ces).2.1.length).map (fun i => toString i) ∧
      ((parseEwcData rs bms mints ces).2.1).flatMap (fun c => c.claimIds) =
        (List.range (parseEwcData rs bms mints ces).2.2.length).map (fun i => toString i) ∧
      (∀ (i : Nat) (r : RedemptionSetEvent), (sortByBlockNumber rs)[i]? = some r →
        ∃ nc nk,
          (parseEwcData rs bms mints ces).1[i]? = some (mkBatchRow i r
            ((List.range' nc (batchNew r.batchId bms mints ces nc nk).1.length).map
              (fun x => toString x))) ∧
          ∀ (m : Nat) (cert : Certificate),
            (batchNew r.batchId bms mints ces nc nk).1[m]? = some cert →
            (parseEwcData rs bms mints ces).2.1[nc + m]? = some cert) ∧
      (∀ (j : Nat) (c : Certificate), (parseEwcData rs bms mints ces).2.1[j]? = some c →
        ∃ cid nk, c.tokenId = toString cid ∧
          c.claimIds = (List.range' nk (newClaims cid ces nk).length).map
            (fun x => toString x) ∧
          ∀ (p : Nat) (cl : Claim), (newClaims cid ces nk)[p]? = some cl →
            (parseEwcData rs bms mints ces).2.2[nk + p]? = some cl) := by
  intro rs bms mints ces
  refine ⟨?_, ?_, ?_, ?_, ?_, ?_, ?_⟩
  · rw [parseEwcData_eq]
    simp only [List.range_eq_range']
    exact redNew_certs_map_id (sortByBlockNumber rs) bms mints ces 0 0 0
  · rw [parseEwcData_eq]
    simp only [List.range_eq_range']
    exact redNew_claims_map_id (sortByBlockNumber rs) bms mints ces 0 0 0
  · rw [parseEwcData_eq]
    simp only [List.range_eq_range']
    exact redNew_batches_map_id (sortByBlockNumber rs) bms mints ces 0 0 0
  · rw [parseEwcData_eq]
    simp only [List.range_eq_range']
    exact redNew_batches_bind_certIds (sortByBlockNumber rs) bms mints ces 0 0 0
  · rw [parseEwcData_eq]
    simp only [List.range_eq_range']
    exact redNew_certs_bind_claimIds (sortByBlockNumber rs) bms mints ces 0 0 0
  · intro i r hi
    obtain ⟨d, e, h1, h2⟩ :=
      redNew_batch_pass_at (sortByBlockNumber rs) bms mints ces 0 0 0 i r hi
    refine ⟨d, e, ?_, ?_⟩
    · rw [parseEwcData_eq]
      simpa using h1
    · intro m cert hm
      rw [parseEwcData_eq]
      have hm' : (batchNew r.batchId bms mints ces (0 + d) (0 + e)).1[m]? = some cert := by
        simpa using hm
      simpa using h2 m cert hm'
  · intro j c hc
    rw [parseEwcData_eq] at hc
    obtain ⟨cid, e, h1, h2, h3⟩ :=
      redNew_cert_match_at (sortByBlockNumber rs) bms mints ces 0 0 0 j c hc
    refine ⟨cid, e, h1, by simpa using h2, ?_⟩
    intro p cl hcl
    rw [parseEwcData_eq]
    have hcl' : (newClaims cid ces (0 + e))[p]? = some cl := by simpa using hcl
    simpa using h3 p cl hcl'

set_option maxRecDepth 40000 in
/-- Witness for C10, on the single-batch single-mint single-claim scenario:
the per-pass attribution of the Batch row at index 0 and the per-match
attribution of the Certificate row at index 0. -/
theorem C10_positional_ids_and_backrefs_witness :
    (∃ nc nk,
      (parseEwcData [rB1] [bmB1] [mint7] [claim7]).1[0]? = some (mkBatchRow 0 rB1
        ((List.range' nc (batchNew rB1.batchId [bmB1] [mint7] [claim7] nc nk).1.length).map
          (fun x => toString x))) ∧
      ∀ (m : Nat) (cert : Certificate),
        (batchNew rB1.batchId [bmB1] [mint7] [claim7] nc nk).1[m]? = some cert →
        (parseEwcData [rB1] [bmB1] [mint7] [claim7]).2.1[nc + m]? = some cert) ∧
    (∃ cid nk, cert7Row.tokenId = toString cid ∧
      cert7Row.claimIds = (List.range' nk (newClaims cid [claim7] nk).length).map
        (fun x => toString x) ∧
      ∀ (p : Nat) (cl : Claim), (newClaims cid [claim7] nk)[p]? = some cl →
        (parseEwcData [rB1] [bmB1] [mint7] [claim7]).2.2[nk + p]? = some cl) :=
  ⟨(C10_positional_ids_and_backrefs [rB1] [bmB1] [mint7] [claim7]).2.2.2.2.2.1 0 rB1
      (by decide),
   (C10_positional_ids_and_backrefs [rB1] [bmB1] [mint7] [claim7]).2.2.2.2.2.2 0 cert7Row
      (by decide)⟩

end Ewc
